import Mathlib

/-!
Verification of the sftp-gui transfer core: a shallow embedding of the
output classifier (`src/main/sftp/output-parser.ts`), the session protocol
engine (`src/main/sftp/session.ts`), the per-transfer progress aggregator
(`TransferItem`) and the scheduler (`src/main/transfers/transfer-manager.ts`),
together with theorems settling the specification claims about them.

Strings are modelled as `List Char` (the code manipulates JS strings
character by character); numbers as `Nat`/`Int` with exact arithmetic where
the code uses JS numbers.
-/

namespace SftpGui

/-! ## Character classes and basic string helpers

The JS regex classes `\s`, `\d`, `\S`, `\w` restricted to the ASCII range
(the inputs of interest are terminal output in the C locale). -/

/-- JS `\s` (ASCII part): space, tab, newline, carriage return, vertical tab, form feed. -/
def isSp (c : Char) : Bool :=
  c = ' ' || c = '\t' || c = '\n' || c = '\r' || c = Char.ofNat 11 || c = Char.ofNat 12

/-- JS `\d`. -/
def isDigitCh (c : Char) : Bool := '0' ≤ c && c ≤ '9'

/-- JS `\w`: letters, digits, underscore. -/
def isWordCh (c : Char) : Bool :=
  ('a' ≤ c && c ≤ 'z') || ('A' ≤ c && c ≤ 'Z') || isDigitCh c || c = '_'

/-- ASCII lower-casing, modelling the `i` regex flag. -/
def lowCh (c : Char) : Char :=
  if 'A' ≤ c && c ≤ 'Z' then Char.ofNat (c.toNat + 32) else c

/-- Lower-case a string (for case-insensitive matching). -/
def lowStr (l : List Char) : List Char := l.map lowCh

/-- JS `String.prototype.trim` (ASCII whitespace). -/
def jsTrim (l : List Char) : List Char :=
  ((l.dropWhile isSp).reverse.dropWhile isSp).reverse

/-- JS `String.prototype.split('\n')`: `"" ↦ [""]`, separators delimit fields. -/
def splitNl : List Char → List (List Char)
  | [] => [[]]
  | c :: t =>
    if c = '\n' then [] :: splitNl t
    else
      match splitNl t with
      | [] => [[c]]
      | h :: r => (c :: h) :: r

/-- `Array.prototype.join('\n')`. -/
def joinNl (ls : List (List Char)) : List Char := List.intercalate ['\n'] ls

/-- Substring test (JS `indexOf(...) !== -1` / an unanchored regex literal). -/
def isSubstr (needle : List Char) : List Char → Bool
  | [] => decide (needle = [])
  | c :: t => needle.isPrefixOf (c :: t) || isSubstr needle t

/-- Index of the first occurrence of `pat` in `hay` (JS `String.prototype.indexOf`). -/
def indexOfSub (hay pat : List Char) : Option Nat :=
  match hay with
  | [] => if pat = [] then some 0 else none
  | _ :: t => if pat.isPrefixOf hay then some 0 else (indexOfSub t pat).map (· + 1)

/-- Case-insensitive substring test (an `i`-flagged unanchored regex). -/
def containsCI (needle hay : List Char) : Bool := isSubstr (lowStr needle) (lowStr hay)

/-- Index of the first case-insensitive occurrence of `pat` in `hay`. -/
def indexOfCI (hay pat : List Char) : Option Nat := indexOfSub (lowStr hay) (lowStr pat)

/-- Decimal digit run to a number (JS `parseInt(s, 10)` on a `\d+` capture). -/
def digitsToNat (l : List Char) : Nat :=
  l.foldl (fun n c => n * 10 + (c.toNat - '0'.toNat)) 0

/-! ## Output classifier (`src/main/sftp/output-parser.ts`)

Each JS regex is replaced by a deterministic scanner.  Wherever the regex
engine's greedy/backtracking behaviour matters the scanner reproduces it;
the reasoning is recorded next to the relevant step. -/

/-- `RemoteFileEntry` as produced by `parseLsOutput`. -/
structure RemoteFileEntry where
  name : List Char
  isDirectory : Bool
  size : Nat
  modified : List Char
  permissions : List Char
  owner : List Char
  group : List Char
  deriving DecidableEq, Repr

/-- The character class `[drwxlsStT\-@+.*]` of the `ls -la` row regex. -/
def isPermCh (c : Char) : Bool :=
  c = 'd' || c = 'r' || c = 'w' || c = 'x' || c = 'l' || c = 's' || c = 'S' ||
  c = 't' || c = 'T' || c = '-' || c = '@' || c = '+' || c = '.' || c = '*'

/-- The class `[\d:]` of the time field. -/
def isTimeCh (c : Char) : Bool := isDigitCh c || c = ':'

/-- Negation of `\s`, i.e. `\S`. -/
def nonSp (c : Char) : Bool := !isSp c

/-- One `ls -la` row against
`^([drwxlsStT\-@+.*]{10,})\s+(\d+)\s+(\S+)\s+(\S+)\s+(\d+)\s+(\w{3}\s+\d{1,2}\s+[\d:]+)\s+(.+)$`.
Every quantified class is disjoint from what follows it, so each greedy
piece is the maximal run of its class; the only places backtracking can
succeed are `\d{1,2}` (the maximal digit run must have length 1 or 2) and
the final `\s+(.+)$` (when nothing follows the last whitespace run, `\s+`
gives one character back to `.+`). -/
def reqRun (p : Char → Bool) (l : List Char) : Option (List Char × List Char) :=
  if l.takeWhile p = [] then none else some (l.takeWhile p, l.dropWhile p)

/-- One `ls -la` row scanner (see the comment above `reqRun`). -/
def parseLsLine (l : List Char) : Option RemoteFileEntry :=
  let perm := l.takeWhile isPermCh
  if perm.length < 10 then none else
  match reqRun isSp (l.dropWhile isPermCh) with
  | none => none
  | some (_, r2) =>
  match reqRun isDigitCh r2 with
  | none => none
  | some (_, r3) =>
  match reqRun isSp r3 with
  | none => none
  | some (_, r4) =>
  match reqRun nonSp r4 with
  | none => none
  | some (owner, r5) =>
  match reqRun isSp r5 with
  | none => none
  | some (_, r6) =>
  match reqRun nonSp r6 with
  | none => none
  | some (grp, r7) =>
  match reqRun isSp r7 with
  | none => none
  | some (_, r8) =>
  match reqRun isDigitCh r8 with
  | none => none
  | some (sz, r9) =>
  match reqRun isSp r9 with
  | none => none
  | some (_, r10) =>
  match r10 with
  | m1 :: m2 :: m3 :: r11 =>
    if !(isWordCh m1 && isWordCh m2 && isWordCh m3) then none else
    match reqRun isSp r11 with
    | none => none
    | some (w6, r12) =>
    match reqRun isDigitCh r12 with
    | none => none
    | some (day, r13) =>
    -- `\d{1,2}` then `\s+`: the maximal digit run must have length 1 or 2
    if 2 < day.length then none else
    match reqRun isSp r13 with
    | none => none
    | some (w7, r14) =>
    match reqRun isTimeCh r14 with
    | none => none
    | some (tim, r15) =>
    match reqRun isSp r15 with
    | none => none
    | some (w8, r16) =>
    let mkEntry : List Char → RemoteFileEntry := fun name =>
      { name := name
        isDirectory := perm.headI = 'd'
        size := digitsToNat sz
        modified := m1 :: m2 :: m3 :: (w6 ++ day ++ w7 ++ tim)
        permissions := perm
        owner := owner
        group := grp }
    if r16 ≠ [] then
      -- `(.+)$` cannot cross a newline and no earlier piece can absorb one
      if '\n' ∈ r16 then none else some (mkEntry r16)
    else
      -- the row ends in whitespace: `\s+` backtracks one character for `.+`
      match w8.getLast? with
      | some cl => if 2 ≤ w8.length && cl ≠ '\n' then some (mkEntry [cl]) else none
      | none => none
  | _ => none

/-- `parseLsOutput`: split on newlines, trim, parse rows, drop "." and "..". -/
def parseLsOutput (raw : List Char) : List RemoteFileEntry :=
  (splitNl raw).filterMap fun line =>
    let trimmed := jsTrim line
    if trimmed = [] then none
    else
      match parseLsLine trimmed with
      | none => none
      | some e => if e.name = ['.'] || e.name = ['.', '.'] then none else some e

/-- `detectHostKeyPrompt`: case-insensitive search for the confirmation phrase;
returns the whole output when found. -/
def detectHostKeyPrompt (output : List Char) : Option (List Char) :=
  if containsCI ("are you sure you want to continue connecting".toList) output then some output
  else none

/-- `detectAuthPrompt`: `/password:|passphrase for key/i`. -/
def detectAuthPrompt (output : List Char) : Bool :=
  containsCI ("password:".toList) output || containsCI ("passphrase for key".toList) output

/-- `detectSftpPrompt`: `/sftp>\s*$/`, i.e. the output ends in `sftp>` followed
only by whitespace. -/
def detectSftpPrompt (output : List Char) : Bool :=
  ("sftp>".toList.reverse).isPrefixOf (output.reverse.dropWhile isSp)

/-- The fixed connection-error phrase list of `detectConnectionError`, in
source order. -/
def errorPatterns : List (List Char) :=
  ["Connection refused".toList, "Connection timed out".toList,
   "No route to host".toList, "Could not resolve hostname".toList,
   "Permission denied".toList, "Connection closed".toList,
   "Connection reset".toList, "Host key verification failed".toList]

/-- `detectConnectionError`: first phrase found (case-insensitively) wins;
the returned value is the matched slice of the input (JS `match[0]`). -/
def detectConnectionError (output : List Char) : Option (List Char) :=
  match errorPatterns.find? (fun p => containsCI p output) with
  | some p => (indexOfCI output p).map (fun i => (output.drop i).take p.length)
  | none => none

/-- A progress sample `{filename, percent, speed, eta}` (with `transferred`
captured but not returned by `parseTransferProgress`). -/
structure ProgressSample where
  filename : Option (List Char) := none
  percent : Option Nat := none
  transferred : Option Nat := none
  speed : Option (List Char) := none
  eta : Option (List Char) := none
  deriving DecidableEq, Repr

/-- The tail `\s+(\d+)%\s+(\S+)\s+(\S+\/s)\s+(\S+)\s*$` of the progress
regex, matched after a candidate filename split.  Again every greedy piece
is a maximal run; `\S+\/s` succeeds exactly when the maximal non-space run
has length ≥ 3 and ends in `/s`, and `(\d+)%` exactly when the maximal
digit run is followed by `%`. -/
def tpTail (rest : List Char) : Option (Nat × List Char × List Char × List Char) :=
  let w1 := rest.takeWhile isSp
  let r1 := rest.dropWhile isSp
  if w1 = [] then none else
  let d := r1.takeWhile isDigitCh
  let r2 := r1.dropWhile isDigitCh
  if d = [] then none else
  match r2 with
  | '%' :: r3 =>
    let w2 := r3.takeWhile isSp
    let r4 := r3.dropWhile isSp
    if w2 = [] then none else
    let t1 := r4.takeWhile nonSp
    let r5 := r4.dropWhile nonSp
    if t1 = [] then none else
    let w3 := r5.takeWhile isSp
    let r6 := r5.dropWhile isSp
    if w3 = [] then none else
    let t2 := r6.takeWhile nonSp
    let r7 := r6.dropWhile nonSp
    if t2.length < 3 || !(['/', 's'].isSuffixOf t2) then none else
    let w4 := r7.takeWhile isSp
    let r8 := r7.dropWhile isSp
    if w4 = [] then none else
    let t3 := r8.takeWhile nonSp
    let r9 := r8.dropWhile nonSp
    if t3 = [] then none else
    if r9.all isSp then some (digitsToNat d, t1, t2, t3) else none
  | _ => none

/-- Split-point search for the lazy `^(.+?)` of the progress regex: the
shortest non-empty newline-free filename prefix whose remainder matches
`tpTail` wins. -/
def tpGo (acc : List Char) : List Char → Option (List Char × Nat × List Char × List Char × List Char)
  | [] => none
  | c :: rest =>
    if c = '\n' then none
    else
      match tpTail rest with
      | some (p, t1, t2, t3) => some (acc ++ [c], p, t1, t2, t3)
      | none => tpGo (acc ++ [c]) rest

/-- `parseTransferProgress` against
`^(.+?)\s+(\d+)%\s+(\S+)\s+(\S+\/s)\s+(\S+)\s*$`; the returned object holds
the trimmed filename, the percent, the speed and the eta captures (the
transferred capture is dropped by the source). -/
def parseTransferProgress (line : List Char) : Option ProgressSample :=
  (tpGo [] line).map fun r =>
    { filename := some (jsTrim r.1)
      percent := some r.2.1
      speed := some r.2.2.2.1
      eta := some r.2.2.2.2 }

/-! ## Session protocol engine (`src/main/sftp/session.ts`)

The session is modelled after ANSI stripping: chunks passed to `handleData`
below stand for `stripAnsi(data)`.  `replace(/\r\n/g,'\n')` followed by
`replace(/\r/g,'')` deletes every carriage return, so the buffer-append
normalisation is a single filter. -/

/-- A queued command: request text, sentinel token, and an identity standing
in for the promise callbacks. -/
structure Cmd where
  command : List Char
  sentinel : List Char
  cmdId : Nat
  deriving DecidableEq, Repr

/-- The session fields the protocol engine mutates. -/
structure SessState where
  connected : Bool
  connecting : Bool
  buffer : List Char
  currentCommand : Option Cmd
  commandQueue : List Cmd
  deriving DecidableEq, Repr

/-- Strip leading repetitions of the idle prompt: `replace(/^(sftp>\s*)+/, '')`.
Structural fuel recursion: every iteration consumes at least the five
prompt characters, so `l.length` iterations always reach the fixpoint. -/
def dropPromptRepsAux : Nat → List Char → List Char
  | 0, l => l
  | fuel + 1, l =>
    if ("sftp>".toList).isPrefixOf l then
      dropPromptRepsAux fuel ((l.drop 5).dropWhile isSp)
    else l

def dropPromptReps (l : List Char) : List Char := dropPromptRepsAux l.length l

/-- `/!echo .*__DONE_/.test(line)` on a newline-free line: an occurrence of
`"!echo "` followed somewhere later by `"__DONE_"`. -/
def echoTest (l : List Char) : Bool :=
  match indexOfSub l ("!echo ".toList) with
  | some i => isSubstr ("__DONE_".toList) (l.drop (i + 6))
  | none => false

/-- `cleanCommandOutput`: per line, drop stray `\r` and trim; skip sentinel
echo lines, the command echo (with any idle-prompt prefix) and bare prompt
lines; rejoin and trim. -/
def cleanCommandOutput (output command : List Char) : List Char :=
  let cleaned := (splitNl output).filterMap fun line =>
    let trimmed := jsTrim (line.filter (fun c => c ≠ '\r'))
    let stripped := dropPromptReps trimmed
    if echoTest trimmed then none
    else if stripped = command then none
    else if stripped = [] then none
    else some trimmed
  jsTrim (joinNl cleaned)

/-- Events the steady-state data handler can emit. -/
inductive SessEvent where
  | progress (p : ProgressSample)
  | resolved (c : Cmd) (out : List Char)
  | disconnected
  deriving DecidableEq, Repr

/-- `processQueue`: with no in-flight command, pop the queue head into the
in-flight slot and clear the buffer (the write to the pty is outside the
model). -/
def processQueue (s : SessState) : SessState :=
  match s.currentCommand with
  | some _ => s
  | none =>
    match s.commandQueue with
    | [] => s
    | c :: rest => { s with currentCommand := some c, commandQueue := rest, buffer := [] }

/-- The buffer phase of `handleData`: append the `\r`-stripped chunk, look
for `'\n' + sentinel` (the sentinel at the start of a line), resolve the
in-flight command with the cleaned preceding output, then check the raw
chunk for a connection error. -/
def handleBufferPhase (s : SessState) (data : List Char) : SessState × List SessEvent :=
  let buf := s.buffer ++ data.filter (fun c => c ≠ '\r')
  let step : SessState × List SessEvent :=
    match s.currentCommand with
    | none => ({ s with buffer := buf }, [])
    | some cmd =>
      match indexOfSub buf ('\n' :: cmd.sentinel) with
      | none => ({ s with buffer := buf }, [])
      | some i =>
        let out := cleanCommandOutput (buf.take i) cmd.command
        let s1 := { s with buffer := buf.drop (i + 1 + cmd.sentinel.length),
                           currentCommand := none }
        (processQueue s1, [SessEvent.resolved cmd out])
  if detectConnectionError data ≠ none then
    ({ step.1 with connected := false }, step.2 ++ [SessEvent.disconnected])
  else (step.1, step.2)

/-- `handleData`: a chunk containing `\r` but no `\n` is probed as a
live-updating progress line first and, if recognised, consumed without
touching the buffer; anything else goes through the buffer phase. -/
def handleData (s : SessState) (data : List Char) : SessState × List SessEvent :=
  if data.contains '\r' && !data.contains '\n' then
    match parseTransferProgress (jsTrim data) with
    | some p => (s, [SessEvent.progress p])
    | none => handleBufferPhase s data
  else handleBufferPhase s data

/-- A settled command promise. -/
inductive CmdResult where
  | resolvedCmd (c : Cmd) (out : List Char)
  | rejectedCmd (c : Cmd) (err : List Char)
  deriving DecidableEq, Repr

/-- The rejection error used by the exit handler. -/
def connClosedErr : List Char := "Connection closed".toList

/-- The `onExit` handler installed by `connect`: reject the in-flight
command and every queued command with the connection-closed error and clear
both. -/
def onExit (s : SessState) : SessState × List CmdResult :=
  ({ s with connected := false, connecting := false,
            currentCommand := none, commandQueue := [] },
   (s.currentCommand.toList.map fun c => CmdResult.rejectedCmd c connClosedErr) ++
     (s.commandQueue.map fun c => CmdResult.rejectedCmd c connClosedErr))

/-! ## TransferItem (`src/main/transfers/transfer-item.ts`, folder-aware
version)

Byte accounting and ETA estimation.  JS numbers are modelled as exact
naturals; `Math.round(x)` on the non-negative rationals involved is
`⌊x + 1/2⌋`, and `Date.now()` becomes an explicit `now` argument. -/

inductive Direction where
  | upload
  | download
  deriving DecidableEq, Repr

inductive TransferStatus where
  | queued
  | active
  | completed
  | failed
  | cancelled
  deriving DecidableEq, Repr

/-- A per-file failure record (name, error, source, destination). -/
structure FailedFile where
  name : List Char
  error : List Char
  sourcePath : List Char
  destPath : List Char
  deriving DecidableEq, Repr

/-- A registered (name, size) expectation for one folder-transfer file. -/
structure SizeEntry where
  name : List Char
  size : Nat
  deriving DecidableEq, Repr

/-- The mutable state of one `TransferItem`. -/
structure TransferItem where
  id : List Char
  filename : List Char
  currentFile : Option (List Char)
  direction : Direction
  percent : Nat
  transferred : Nat
  total : Nat
  speed : List Char
  eta : List Char
  status : TransferStatus
  error : Option (List Char)
  localPath : List Char
  remotePath : List Char
  isFolder : Bool
  failedFiles : List FailedFile
  fileSizes : List SizeEntry
  completedBytes : Nat
  currentFileName : List Char
  currentFileCompleted : Bool
  speedSamples : List (Nat × Nat)
  deriving DecidableEq, Repr

/-- A freshly constructed `TransferItem` (the class field initialisers). -/
def newTransferItem (id filename : List Char) (direction : Direction)
    (localPath remotePath : List Char) : TransferItem :=
  { id := id, filename := filename, currentFile := none, direction := direction
    percent := 0, transferred := 0, total := 0, speed := [], eta := []
    status := TransferStatus.queued, error := none
    localPath := localPath, remotePath := remotePath
    isFolder := false, failedFiles := [], fileSizes := []
    completedBytes := 0, currentFileName := [], currentFileCompleted := false
    speedSamples := [] }

/-- `setFileSizes`: switch to folder mode and register the expected sizes. -/
def setFileSizes (sizes : List SizeEntry) (totalBytes : Nat) (s : TransferItem) : TransferItem :=
  { s with fileSizes := sizes, total := totalBytes, isFolder := true }

/-- `findIndex` + `splice(idx, 1)` of `markCurrentFileCompleted`: consume the
first size entry with the given name, returning its size and the remaining
list. -/
def consumeFirst (nm : List Char) : List SizeEntry → Option (Nat × List SizeEntry)
  | [] => none
  | e :: rest =>
    if e.name = nm then some (e.size, rest)
    else (consumeFirst nm rest).map fun p => (p.1, e :: p.2)

/-- `markCurrentFileCompleted`: credit the tracked current file's registered
size once and remove that one entry; always mark the current file done. -/
def markCurrentFileCompleted (s : TransferItem) : TransferItem :=
  match consumeFirst s.currentFileName s.fileSizes with
  | some (sz, rest) =>
    { s with completedBytes := s.completedBytes + sz, fileSizes := rest,
             currentFileCompleted := true }
  | none => { s with currentFileCompleted := true }

/-- `formatEta` (the `seconds` argument is non-negative in the model since
remaining bytes are clamped at zero). -/
def formatEta (seconds : Nat) : List Char :=
  if seconds < 60 then (toString seconds).toList ++ ['s']
  else
    let m := seconds / 60
    let sr := seconds % 60
    if m < 60 then
      if 0 < sr then (toString m).toList ++ "m ".toList ++ (toString sr).toList ++ ['s']
      else (toString m).toList ++ ['m']
    else
      let h := m / 60
      let rm := m % 60
      if 0 < rm then (toString h).toList ++ "h ".toList ++ (toString rm).toList ++ ['m']
      else (toString h).toList ++ ['h']

/-- `computeEta`: push a (time, effective bytes) sample, prune to the 30s
window keeping one anchor before it, and derive throughput/ETA from the
window edges.  Divisions are exact rational arithmetic rounded as the JS
floats would round in the integer-valued cases. -/
def computeEta (now : Nat) (s : TransferItem) : TransferItem :=
  if s.total = 0 then s
  else
    let effectiveBytes :=
      if s.isFolder then s.completedBytes else (s.percent * s.total + 50) / 100
    let samples0 := s.speedSamples ++ [(now, effectiveBytes)]
    let cutoff := now - 30000
    let pruneIdx := (samples0.takeWhile fun q => q.1 < cutoff).length
    let samples := if 1 < pruneIdx then samples0.drop (pruneIdx - 1) else samples0
    let s1 := { s with speedSamples := samples }
    if samples.length < 2 then s1
    else
      let o := samples.headD (0, 0)
      let nw := samples.getLastD (0, 0)
      let elapsedMs := nw.1 - o.1
      if elapsedMs < 500 then s1
      else if nw.2 ≤ o.2 then s1
      else
        let deltaB := nw.2 - o.2
        let remaining := s.total - effectiveBytes
        let secs := (remaining * elapsedMs + deltaB * 1000 - 1) / (deltaB * 1000)
        { s1 with eta := formatEta secs }

/-- The `data.speed` copy at the top of `updateProgress`. -/
def applySpeed (data : ProgressSample) (s : TransferItem) : TransferItem :=
  match data.speed with
  | some v => { s with speed := v }
  | none => s

/-- The folder-mode body of `updateProgress`: track the reported file,
finalize on a file switch or a 100% sample, and recompute the aggregate
percent (half-up rounding, clamped to 99). -/
def updateProgressFolder (data : ProgressSample) (s : TransferItem) : TransferItem :=
  let progressFilename := data.filename.getD []
  let s :=
    if progressFilename ≠ [] && progressFilename ≠ s.currentFileName then
      let s :=
        if s.currentFileName ≠ [] && !s.currentFileCompleted then
          markCurrentFileCompleted s
        else s
      { s with currentFileName := progressFilename,
               currentFile := some progressFilename,
               currentFileCompleted := false }
    else s
  let s :=
    if data.percent = some 100 && !s.currentFileCompleted then
      markCurrentFileCompleted s
    else s
  { s with transferred := s.completedBytes,
           percent :=
             if 0 < s.total then
               min ((200 * s.completedBytes + s.total) / (2 * s.total)) 99
             else 0 }

/-- The single-file body of `updateProgress`: copy the sample's percent and
transferred fields. -/
def updateProgressSingle (data : ProgressSample) (s : TransferItem) : TransferItem :=
  let s :=
    match data.percent with
    | some p => { s with percent := p }
    | none => s
  match data.transferred with
  | some t => { s with transferred := t }
  | none => s

/-- `updateProgress`: folder mode tracks per-file completion and recomputes
the aggregate percent; single-file mode copies the sample's fields; both
end by updating the ETA estimate. -/
def updateProgress (now : Nat) (data : ProgressSample) (s : TransferItem) : TransferItem :=
  let s := applySpeed data s
  computeEta now
    (if s.isFolder && 0 < s.total then updateProgressFolder data s
     else updateProgressSingle data s)

/-! ## TransferManager (`src/main/transfers/transfer-manager.ts`)

Three facets are embedded: the per-file outcome bookkeeping of
`executeWork`, the session-pool counting discipline, and the cleanup
decision taken by `cancel`. -/

/-- One file-level unit of work. -/
structure FileWork where
  transferId : List Char
  sourcePath : List Char
  destPath : List Char
  direction : Direction
  size : Nat
  filename : List Char
  deriving DecidableEq, Repr

/-- The manager's record for one transfer. -/
structure TransferMeta where
  item : TransferItem
  totalFiles : Nat
  completedFiles : Nat
  deriving DecidableEq, Repr

/-- How one `executeWork` call for one `FileWork` terminated. -/
inductive WorkOutcome where
  | workOk
  | workFail (err : List Char)
  deriving DecidableEq, Repr

/-- The `{ percent: 100, filename: work.filename }` sample `executeWork`
feeds to the parent item when a file finishes. -/
def completionSample (fn : List Char) : ProgressSample :=
  { percent := some 100, filename := some fn }

/-- The bookkeeping `executeWork` performs after the per-file transfer
finishes or throws (the cancelled-mid-flight early return and the session
pooling are outside this function; see `PoolOp` for the latter). -/
def applyOutcome (now : Nat) (work : FileWork) (o : WorkOutcome) (meta : TransferMeta) :
    TransferMeta :=
  match o with
  | WorkOutcome.workOk =>
    let m : TransferMeta := { meta with completedFiles := meta.completedFiles + 1 }
    let m : TransferMeta :=
      { m with item := updateProgress now (completionSample work.filename) m.item }
    if m.totalFiles ≤ m.completedFiles then
      let it := { m.item with status := TransferStatus.completed, percent := 100 }
      { m with item := it }
    else m
  | WorkOutcome.workFail err =>
    if meta.item.status = TransferStatus.cancelled then meta
    else if 1 < meta.totalFiles then
      let record : FailedFile :=
        ⟨work.filename, err, work.sourcePath, work.destPath⟩
      let it0 : TransferItem :=
        { meta.item with failedFiles := meta.item.failedFiles ++ [record] }
      let m : TransferMeta :=
        { meta with item := it0, completedFiles := meta.completedFiles + 1 }
      let m : TransferMeta :=
        { m with item := updateProgress now (completionSample work.filename) m.item }
      if m.totalFiles ≤ m.completedFiles then
        if m.totalFiles ≤ m.item.failedFiles.length then
          let it := { m.item with status := TransferStatus.failed }
          let it := { it with error := some ("All files failed".toList) }
          { m with item := it }
        else
          let it := { m.item with status := TransferStatus.completed, percent := 100 }
          { m with item := it }
      else m
    else
      let it := { meta.item with status := TransferStatus.failed, error := some err }
      { meta with item := it }

/-- A whole run of `executeWork` terminations, in completion order. -/
def runOutcomes (events : List (Nat × FileWork × WorkOutcome)) (meta : TransferMeta) :
    TransferMeta :=
  events.foldl (fun m e => applyOutcome e.1 e.2.1 e.2.2 m) meta

/-- The failure record an event contributes, if any. -/
def failureRecord (e : Nat × FileWork × WorkOutcome) : Option FailedFile :=
  match e.2.2 with
  | WorkOutcome.workOk => none
  | WorkOutcome.workFail err =>
    some { name := e.2.1.filename, error := err,
           sourcePath := e.2.1.sourcePath, destPath := e.2.1.destPath }

/-- Number of failing events in a run. -/
def countFailures (events : List (Nat × FileWork × WorkOutcome)) : Nat :=
  (events.filterMap failureRecord).length

/-! ### Session-pool counting

The pool discipline of `processNext` / `returnSession` /
`setMaxConcurrent` / `cancel` / `destroy`, abstracted to the three counters
it constrains: idle pooled sessions, entries of the active map, and the
configured maximum.  Each operation is a no-op when its code path's guard
does not hold. -/

structure PoolState where
  idle : Nat
  active : Nat
  maxConcurrent : Nat
  deriving DecidableEq, Repr

inductive PoolOp where
  /-- `processNext` admission reusing a pooled session after discarding
  `dead` dead ones (`getOrCreateSession` pops until a connected session). -/
  | admitReuse (dead : Nat)
  /-- `processNext` admission connecting a fresh session after the pool ran
  out (all `dead` remaining pooled sessions were dead and discarded). -/
  | admitNew (dead : Nat)
  /-- `executeWork` finally-block for a healthy session: leave the active
  map, then `returnSession` pools it only below capacity. -/
  | finishOk
  /-- `executeWork` finally-block for an errored/disconnected session:
  leave the active map, discard the session. -/
  | finishBad
  /-- `cancel` force-kills `k` active sessions of the cancelled transfer. -/
  | cancelKill (k : Nat)
  /-- `setMaxConcurrent n`: store `n`, then pop idle sessions while the pool
  is non-empty and idle+active exceeds `n`. -/
  | setMax (n : Nat)
  /-- `destroy`: kill every active session, disconnect every idle one. -/
  | destroy
  deriving DecidableEq, Repr

def poolStep (s : PoolState) : PoolOp → PoolState
  | PoolOp.admitReuse dead =>
    if s.active < s.maxConcurrent && dead + 1 ≤ s.idle then
      { s with idle := s.idle - (dead + 1), active := s.active + 1 }
    else s
  | PoolOp.admitNew dead =>
    if s.active < s.maxConcurrent && dead = s.idle then
      { s with idle := 0, active := s.active + 1 }
    else s
  | PoolOp.finishOk =>
    if 0 < s.active then
      let a := s.active - 1
      if s.idle + a < s.maxConcurrent then { s with idle := s.idle + 1, active := a }
      else { s with active := a }
    else s
  | PoolOp.finishBad =>
    if 0 < s.active then { s with active := s.active - 1 } else s
  | PoolOp.cancelKill k =>
    if k ≤ s.active then { s with active := s.active - k } else s
  | PoolOp.setMax n =>
    { s with maxConcurrent := n, idle := min s.idle (n - s.active) }
  | PoolOp.destroy => { s with idle := 0, active := 0 }

/-- A manager starts with an empty pool and active map. -/
def initialPool (maxConcurrent : Nat) : PoolState :=
  { idle := 0, active := 0, maxConcurrent := maxConcurrent }

def runPool (ops : List PoolOp) (s : PoolState) : PoolState :=
  ops.foldl poolStep s

/-! ### Cancellation cleanup -/

inductive CleanupMode where
  | removePartial
  | removeAll
  deriving DecidableEq, Repr

/-- One entry of the active-session map. -/
structure ActiveEntry where
  sessionId : List Char
  work : FileWork
  deriving DecidableEq, Repr

/-- A best-effort deletion `cancel` issues. -/
inductive DelAction where
  | delLocal (path : List Char)
  | delRemoteFile (path : List Char)
  | delRemoteDir (path : List Char)
  deriving DecidableEq, Repr

/-- `path.join(a, b)` / the remote `a.endsWith('/') ? a + b : a + '/' + b`
pattern, modelled uniformly as slash-aware concatenation. -/
def joinPath (a b : List Char) : List Char :=
  if a.getLast? = some '/' then a ++ b else a ++ '/' :: b

/-- The in-flight work items `cancel` collects for a transfer id from the
active-session map, in map order. -/
def inFlightFor (id : List Char) (actives : List ActiveEntry) : List FileWork :=
  (actives.filter fun a => a.work.transferId = id).map fun a => a.work

/-- The deletion `cleanupPartialFiles` issues for one in-flight work item
(`mainConnected` is `mainSession.isConnected`; a disconnected main session
skips remote deletes). -/
def partialDelete (mainConnected : Bool) (w : FileWork) : Option DelAction :=
  match w.direction with
  | Direction.download => some (DelAction.delLocal (joinPath w.destPath w.filename))
  | Direction.upload =>
    if mainConnected then some (DelAction.delRemoteFile (joinPath w.destPath w.filename))
    else none

/-- The deletion `cleanupTransfer` issues for a whole transfer: the single
destination file, or the whole destination directory for an upload folder. -/
def wholeDelete (mainConnected : Bool) (item : TransferItem) : List DelAction :=
  match item.direction with
  | Direction.download => [DelAction.delLocal (joinPath item.localPath item.filename)]
  | Direction.upload =>
    if mainConnected then
      if item.isFolder then [DelAction.delRemoteDir (joinPath item.remotePath item.filename)]
      else [DelAction.delRemoteFile (joinPath item.remotePath item.filename)]
    else []

/-- The deletions `cancel` performs for an active transfer, after killing
its sessions: the whole destination for non-folders or `remove-all`, only
the in-flight files under `remove-partial`. -/
def cancelDeletions (mainConnected : Bool) (item : TransferItem) (mode : CleanupMode)
    (actives : List ActiveEntry) : List DelAction :=
  if !item.isFolder || mode = CleanupMode.removeAll then wholeDelete mainConnected item
  else (inFlightFor item.id actives).filterMap (partialDelete mainConnected)

/-! ## Pattern languages

Independent descriptions of the regex languages, used to state that the
classifiers fire only on matching input. -/

/-- The language of `^(.+?)\s+(\d+)%\s+(\S+)\s+(\S+\/s)\s+(\S+)\s*$`. -/
def tpShape (l : List Char) : Prop :=
  ∃ f w1 d w2 t1 w3 t2 w4 t3 w5,
    l = f ++ w1 ++ d ++ '%' :: (w2 ++ t1 ++ w3 ++ t2 ++ w4 ++ t3 ++ w5) ∧
    f ≠ [] ∧ '\n' ∉ f ∧
    w1 ≠ [] ∧ (∀ c ∈ w1, isSp c) ∧
    d ≠ [] ∧ (∀ c ∈ d, isDigitCh c) ∧
    w2 ≠ [] ∧ (∀ c ∈ w2, isSp c) ∧
    t1 ≠ [] ∧ (∀ c ∈ t1, nonSp c) ∧
    w3 ≠ [] ∧ (∀ c ∈ w3, isSp c) ∧
    3 ≤ t2.length ∧ ['/', 's'].isSuffixOf t2 ∧ (∀ c ∈ t2, nonSp c) ∧
    w4 ≠ [] ∧ (∀ c ∈ w4, isSp c) ∧
    t3 ≠ [] ∧ (∀ c ∈ t3, nonSp c) ∧
    (∀ c ∈ w5, isSp c)

/-- The language of the `ls -la` row regex
`^([drwxlsStT\-@+.*]{10,})\s+(\d+)\s+(\S+)\s+(\S+)\s+(\d+)\s+(\w{3}\s+\d{1,2}\s+[\d:]+)\s+(.+)$`. -/
def lsRowShape (l : List Char) : Prop :=
  ∃ perm w1 links w2 owner w3 grp w4 sz w5 mon w6 day w7 tim w8 name,
    l = perm ++ w1 ++ links ++ w2 ++ owner ++ w3 ++ grp ++ w4 ++ sz ++ w5 ++
        mon ++ w6 ++ day ++ w7 ++ tim ++ w8 ++ name ∧
    10 ≤ perm.length ∧ (∀ c ∈ perm, isPermCh c) ∧
    w1 ≠ [] ∧ (∀ c ∈ w1, isSp c) ∧
    links ≠ [] ∧ (∀ c ∈ links, isDigitCh c) ∧
    w2 ≠ [] ∧ (∀ c ∈ w2, isSp c) ∧
    owner ≠ [] ∧ (∀ c ∈ owner, nonSp c) ∧
    w3 ≠ [] ∧ (∀ c ∈ w3, isSp c) ∧
    grp ≠ [] ∧ (∀ c ∈ grp, nonSp c) ∧
    w4 ≠ [] ∧ (∀ c ∈ w4, isSp c) ∧
    sz ≠ [] ∧ (∀ c ∈ sz, isDigitCh c) ∧
    w5 ≠ [] ∧ (∀ c ∈ w5, isSp c) ∧
    mon.length = 3 ∧ (∀ c ∈ mon, isWordCh c) ∧
    w6 ≠ [] ∧ (∀ c ∈ w6, isSp c) ∧
    day ≠ [] ∧ day.length ≤ 2 ∧ (∀ c ∈ day, isDigitCh c) ∧
    w7 ≠ [] ∧ (∀ c ∈ w7, isSp c) ∧
    tim ≠ [] ∧ (∀ c ∈ tim, isTimeCh c) ∧
    w8 ≠ [] ∧ (∀ c ∈ w8, isSp c) ∧
    name ≠ [] ∧ '\n' ∉ name

/-- Sample inputs used by witnesses. -/
def lsRaw0 : List Char :=
  ("-rw-r--r--    1 user     group        1234 Jan  1 12:00 notes.txt").toList

def tpLine0 : List Char := ("notes.txt  45%   12MB   3.2MB/s   00:05").toList

/-- A sequence of `updateProgress` calls (sample with its arrival time). -/
def runUpdates (l : List (Nat × ProgressSample)) (s : TransferItem) : TransferItem :=
  l.foldl (fun st e => updateProgress e.1 e.2 st) s

/-- Multiplicity of a name in the pending size multiset. -/
def countName (nm : List Char) (l : List SizeEntry) : Nat :=
  (l.filter fun e => e.name = nm).length

/-! ## Lemmas: string search -/

theorem isSubstr_iff (n h : List Char) :
    isSubstr n h = true ↔ ∃ a b, h = a ++ n ++ b := by
  induction h with
  | nil =>
    constructor
    · intro hs
      have hn : n = [] := by simpa [isSubstr] using hs
      exact ⟨[], [], by simp [hn]⟩
    · rintro ⟨a, b, hab⟩
      have ha : a = [] ∧ n = [] ∧ b = [] := by
        simpa [List.append_eq_nil] using hab.symm
      simp [isSubstr, ha.2.1]
  | cons c t ih =>
    constructor
    · intro hs
      have hs' : n.isPrefixOf (c :: t) = true ∨ isSubstr n t = true := by
        have := hs
        simp only [isSubstr, Bool.or_eq_true] at this
        exact this
      rcases hs' with hp | hrec
      · rcases List.isPrefixOf_iff_prefix.mp hp with ⟨b, hb⟩
        exact ⟨[], b, by simp [hb.symm]⟩
      · rcases ih.mp hrec with ⟨a, b, hab⟩
        exact ⟨c :: a, b, by simp [hab]⟩
    · rintro ⟨a, b, hab⟩
      cases a with
      | nil =>
        simp only [List.nil_append] at hab
        have hp : n.isPrefixOf (c :: t) = true :=
          List.isPrefixOf_iff_prefix.mpr ⟨b, hab.symm⟩
        simp [isSubstr, hp]
      | cons a0 a' =>
        have hct : c = a0 ∧ t = a' ++ n ++ b := by simpa using hab
        have hrec := ih.mpr ⟨a', b, hct.2⟩
        simp [isSubstr, hrec]

theorem indexOfSub_isSome_eq (hay pat : List Char) :
    (indexOfSub hay pat).isSome = isSubstr pat hay := by
  induction hay with
  | nil =>
    by_cases hp : pat = [] <;> simp [indexOfSub, isSubstr, hp]
  | cons c t ih =>
    by_cases hp : pat.isPrefixOf (c :: t) <;>
      simp [indexOfSub, isSubstr, hp, ih]

theorem indexOfSub_isSome_iff (hay pat : List Char) :
    (indexOfSub hay pat).isSome = true ↔ ∃ a b, hay = a ++ pat ++ b := by
  rw [indexOfSub_isSome_eq, isSubstr_iff]

theorem dropWhile_append_of_all (p : Char → Bool) (xs ys : List Char)
    (h : ∀ c ∈ xs, p c = true) : (xs ++ ys).dropWhile p = ys.dropWhile p := by
  induction xs with
  | nil => simp
  | cons c t ih =>
    have hc := h c (by simp)
    simp only [List.cons_append, List.dropWhile_cons, hc, if_true]
    exact ih fun x hx => h x (by simp [hx])

/-! ## Lemmas: TransferItem -/

/-- `computeEta` only writes `eta` and `speedSamples`. -/
theorem computeEta_percent (now : Nat) (s : TransferItem) :
    (computeEta now s).percent = s.percent := by
  simp only [computeEta]
  repeat' split
  all_goals rfl

theorem computeEta_completedBytes (now : Nat) (s : TransferItem) :
    (computeEta now s).completedBytes = s.completedBytes := by
  simp only [computeEta]
  repeat' split
  all_goals rfl

theorem computeEta_total (now : Nat) (s : TransferItem) :
    (computeEta now s).total = s.total := by
  simp only [computeEta]
  repeat' split
  all_goals rfl

theorem computeEta_isFolder (now : Nat) (s : TransferItem) :
    (computeEta now s).isFolder = s.isFolder := by
  simp only [computeEta]
  repeat' split
  all_goals rfl

theorem computeEta_status (now : Nat) (s : TransferItem) :
    (computeEta now s).status = s.status := by
  simp only [computeEta]
  repeat' split
  all_goals rfl

theorem computeEta_failedFiles (now : Nat) (s : TransferItem) :
    (computeEta now s).failedFiles = s.failedFiles := by
  simp only [computeEta]
  repeat' split
  all_goals rfl

theorem computeEta_fileSizes (now : Nat) (s : TransferItem) :
    (computeEta now s).fileSizes = s.fileSizes := by
  simp only [computeEta]
  repeat' split
  all_goals rfl

theorem computeEta_currentFileName (now : Nat) (s : TransferItem) :
    (computeEta now s).currentFileName = s.currentFileName := by
  simp only [computeEta]
  repeat' split
  all_goals rfl

theorem computeEta_currentFileCompleted (now : Nat) (s : TransferItem) :
    (computeEta now s).currentFileCompleted = s.currentFileCompleted := by
  simp only [computeEta]
  repeat' split
  all_goals rfl

theorem computeEta_transferred (now : Nat) (s : TransferItem) :
    (computeEta now s).transferred = s.transferred := by
  simp only [computeEta]
  repeat' split
  all_goals rfl

theorem applySpeed_fields (d : ProgressSample) (s : TransferItem) :
    (applySpeed d s).percent = s.percent ∧ (applySpeed d s).completedBytes = s.completedBytes ∧
    (applySpeed d s).total = s.total ∧ (applySpeed d s).isFolder = s.isFolder ∧
    (applySpeed d s).status = s.status ∧ (applySpeed d s).failedFiles = s.failedFiles ∧
    (applySpeed d s).fileSizes = s.fileSizes ∧
    (applySpeed d s).currentFileName = s.currentFileName ∧
    (applySpeed d s).currentFileCompleted = s.currentFileCompleted := by
  unfold applySpeed
  split
  all_goals simp

theorem mark_status (s : TransferItem) :
    (markCurrentFileCompleted s).status = s.status := by
  unfold markCurrentFileCompleted
  split
  all_goals rfl

theorem mark_failedFiles (s : TransferItem) :
    (markCurrentFileCompleted s).failedFiles = s.failedFiles := by
  unfold markCurrentFileCompleted
  split
  all_goals rfl

theorem mark_isFolder (s : TransferItem) :
    (markCurrentFileCompleted s).isFolder = s.isFolder := by
  unfold markCurrentFileCompleted
  split
  all_goals rfl

theorem mark_total (s : TransferItem) :
    (markCurrentFileCompleted s).total = s.total := by
  unfold markCurrentFileCompleted
  split
  all_goals rfl

theorem mark_completedBytes_ge (s : TransferItem) :
    s.completedBytes ≤ (markCurrentFileCompleted s).completedBytes := by
  unfold markCurrentFileCompleted
  split
  all_goals simp

theorem folderBody_status (d : ProgressSample) (s : TransferItem) :
    (updateProgressFolder d s).status = s.status := by
  simp only [updateProgressFolder]
  repeat' split
  all_goals simp [mark_status]

theorem folderBody_failedFiles (d : ProgressSample) (s : TransferItem) :
    (updateProgressFolder d s).failedFiles = s.failedFiles := by
  simp only [updateProgressFolder]
  repeat' split
  all_goals simp [mark_failedFiles]

theorem folderBody_isFolder (d : ProgressSample) (s : TransferItem) :
    (updateProgressFolder d s).isFolder = s.isFolder := by
  simp only [updateProgressFolder]
  repeat' split
  all_goals simp [mark_isFolder]

theorem folderBody_total (d : ProgressSample) (s : TransferItem) :
    (updateProgressFolder d s).total = s.total := by
  simp only [updateProgressFolder]
  repeat' split
  all_goals simp [mark_total]

theorem folderBody_completedBytes_ge (d : ProgressSample) (s : TransferItem) :
    s.completedBytes ≤ (updateProgressFolder d s).completedBytes := by
  simp only [updateProgressFolder]
  repeat' split
  all_goals
    first
    | exact le_refl _
    | exact mark_completedBytes_ge s
    | (refine le_trans ?_ (mark_completedBytes_ge _)
       first
       | exact le_refl _
       | exact mark_completedBytes_ge s)

/-- The folder body always recomputes the percent from its own final byte
counter. -/
theorem folderBody_percent (d : ProgressSample) (s : TransferItem) :
    (updateProgressFolder d s).percent =
      if 0 < s.total then
        min ((200 * (updateProgressFolder d s).completedBytes + s.total) / (2 * s.total)) 99
      else 0 := by
  simp only [updateProgressFolder]
  repeat' split
  all_goals (first | rfl | (simp only [mark_total]; done) | simp_all [mark_total])

theorem singleBody_status (d : ProgressSample) (s : TransferItem) :
    (updateProgressSingle d s).status = s.status := by
  unfold updateProgressSingle
  repeat' split
  all_goals rfl

theorem singleBody_failedFiles (d : ProgressSample) (s : TransferItem) :
    (updateProgressSingle d s).failedFiles = s.failedFiles := by
  unfold updateProgressSingle
  repeat' split
  all_goals rfl

theorem singleBody_isFolder (d : ProgressSample) (s : TransferItem) :
    (updateProgressSingle d s).isFolder = s.isFolder := by
  unfold updateProgressSingle
  repeat' split
  all_goals rfl

theorem singleBody_total (d : ProgressSample) (s : TransferItem) :
    (updateProgressSingle d s).total = s.total := by
  unfold updateProgressSingle
  repeat' split
  all_goals rfl

theorem updateProgress_status (now : Nat) (d : ProgressSample) (s : TransferItem) :
    (updateProgress now d s).status = s.status := by
  unfold updateProgress
  rw [computeEta_status]
  split
  · rw [folderBody_status, (applySpeed_fields d s).2.2.2.2.1]
  · rw [singleBody_status, (applySpeed_fields d s).2.2.2.2.1]

theorem updateProgress_failedFiles (now : Nat) (d : ProgressSample) (s : TransferItem) :
    (updateProgress now d s).failedFiles = s.failedFiles := by
  unfold updateProgress
  rw [computeEta_failedFiles]
  split
  · rw [folderBody_failedFiles, (applySpeed_fields d s).2.2.2.2.2.1]
  · rw [singleBody_failedFiles, (applySpeed_fields d s).2.2.2.2.2.1]

theorem updateProgress_isFolder (now : Nat) (d : ProgressSample) (s : TransferItem) :
    (updateProgress now d s).isFolder = s.isFolder := by
  unfold updateProgress
  rw [computeEta_isFolder]
  split
  · rw [folderBody_isFolder, (applySpeed_fields d s).2.2.2.1]
  · rw [singleBody_isFolder, (applySpeed_fields d s).2.2.2.1]

theorem updateProgress_total (now : Nat) (d : ProgressSample) (s : TransferItem) :
    (updateProgress now d s).total = s.total := by
  unfold updateProgress
  rw [computeEta_total]
  split
  · rw [folderBody_total, (applySpeed_fields d s).2.2.1]
  · rw [singleBody_total, (applySpeed_fields d s).2.2.1]

theorem singleBody_percent (d : ProgressSample) (s : TransferItem) (p : Nat)
    (hp : d.percent = some p) : (updateProgressSingle d s).percent = p := by
  simp only [updateProgressSingle, hp]
  split
  all_goals rfl

theorem singleBody_completedBytes (d : ProgressSample) (s : TransferItem) :
    (updateProgressSingle d s).completedBytes = s.completedBytes := by
  unfold updateProgressSingle
  repeat' split
  all_goals rfl

/-- The byte counter never decreases across one `updateProgress` call. -/
theorem updateProgress_completedBytes_ge (now : Nat) (d : ProgressSample) (s : TransferItem) :
    s.completedBytes ≤ (updateProgress now d s).completedBytes := by
  unfold updateProgress
  rw [computeEta_completedBytes]
  have hsp := applySpeed_fields d s
  split
  · exact hsp.2.1 ▸ folderBody_completedBytes_ge d (applySpeed d s)
  · rw [singleBody_completedBytes, hsp.2.1]

/-- In folder mode with a positive total, `updateProgress` always leaves the
percent at the rounded-and-clamped aggregate of its own byte counter. -/
theorem updateProgress_folder_percent (now : Nat) (d : ProgressSample) (s : TransferItem)
    (hf : s.isFolder = true) (ht : 0 < s.total) :
    (updateProgress now d s).percent =
      min ((200 * (updateProgress now d s).completedBytes + s.total) / (2 * s.total)) 99 := by
  unfold updateProgress
  have hsp := applySpeed_fields d s
  rw [computeEta_percent, computeEta_completedBytes]
  rw [if_pos (by simp [hsp.2.2.2.1, hsp.2.2.1, hf, ht])]
  rw [folderBody_percent, hsp.2.2.1, if_pos ht]

/-- C6: whenever the spawned process exits, the in-flight command (if any)
and every queued command are each rejected with the connection-closed
error, and the queue and in-flight slot are cleared, leaving no pending
command. -/
theorem onExit_rejects_everything (s : SessState) :
    (onExit s).1.commandQueue = [] ∧ (onExit s).1.currentCommand = none ∧
    (onExit s).1.connected = false ∧
    (onExit s).2 =
      (s.currentCommand.toList.map fun c => CmdResult.rejectedCmd c connClosedErr) ++
        (s.commandQueue.map fun c => CmdResult.rejectedCmd c connClosedErr) ∧
    (∀ c : Cmd, s.currentCommand = some c ∨ c ∈ s.commandQueue →
      CmdResult.rejectedCmd c connClosedErr ∈ (onExit s).2) := by
  refine ⟨rfl, rfl, rfl, rfl, ?_⟩
  intro c hc
  rcases hc with hcur | hqueue
  · simp [onExit, hcur]
  · simp [onExit, hqueue]

theorem onExit_rejects_everything_witness :
    CmdResult.rejectedCmd ⟨['l', 's'], ['s', '1'], 7⟩ connClosedErr ∈
      (onExit { connected := true, connecting := false, buffer := [],
                currentCommand := none,
                commandQueue := [⟨['l', 's'], ['s', '1'], 7⟩] }).2 :=
  (onExit_rejects_everything _).2.2.2.2 ⟨['l', 's'], ['s', '1'], 7⟩ (Or.inr (by decide))

/-- C10: for a non-folder item, `updateProgress` copies the sample's percent
field verbatim and leaves the status untouched, so a 100% sample sets
percent to 100 while the item is still active: the ≤99 clamp is
folder-mode only. -/
theorem single_percent_copied (now : Nat) (d : ProgressSample) (s : TransferItem) (p : Nat)
    (hf : s.isFolder = false) (hp : d.percent = some p) :
    (updateProgress now d s).percent = p ∧
    (updateProgress now d s).status = s.status := by
  refine ⟨?_, updateProgress_status now d s⟩
  unfold updateProgress
  have hsp := applySpeed_fields d s
  rw [computeEta_percent]
  rw [if_neg (by simp [hsp.2.2.2.1, hf])]
  exact singleBody_percent d _ p hp

theorem single_percent_copied_witness :
    (updateProgress 5 { percent := some 100 }
        { newTransferItem ['f'] ['f'] Direction.download ['l'] ['r'] with
          status := TransferStatus.active }).percent = 100 ∧
    (updateProgress 5 { percent := some 100 }
        { newTransferItem ['f'] ['f'] Direction.download ['l'] ['r'] with
          status := TransferStatus.active }).status = TransferStatus.active :=
  single_percent_copied 5 { percent := some 100 } _ 100 (by decide) rfl

/-- C2 counterexample: completing a 1-byte file of an 8-byte folder puts
the ratio at 12.5%; the code's `Math.round` rounds half up to 13, while the
claimed `floor` gives 12.  (12.5 is exactly representable in JS floats, so
the JS value is exactly 13 as well.) -/
theorem folder_percent_round_counterexample :
    (updateProgress 0 { filename := some ['a'], percent := some 100 }
        (setFileSizes [⟨['a'], 1⟩, ⟨['b'], 7⟩] 8
          (newTransferItem ['d'] ['d'] Direction.download ['l'] ['r']))).isFolder = true ∧
    (updateProgress 0 { filename := some ['a'], percent := some 100 }
        (setFileSizes [⟨['a'], 1⟩, ⟨['b'], 7⟩] 8
          (newTransferItem ['d'] ['d'] Direction.download ['l'] ['r']))).total = 8 ∧
    (updateProgress 0 { filename := some ['a'], percent := some 100 }
        (setFileSizes [⟨['a'], 1⟩, ⟨['b'], 7⟩] 8
          (newTransferItem ['d'] ['d'] Direction.download ['l'] ['r']))).completedBytes = 1 ∧
    (updateProgress 0 { filename := some ['a'], percent := some 100 }
        (setFileSizes [⟨['a'], 1⟩, ⟨['b'], 7⟩] 8
          (newTransferItem ['d'] ['d'] Direction.download ['l'] ['r']))).percent = 13 ∧
    (updateProgress 0 { filename := some ['a'], percent := some 100 }
        (setFileSizes [⟨['a'], 1⟩, ⟨['b'], 7⟩] 8
          (newTransferItem ['d'] ['d'] Direction.download ['l'] ['r']))).percent ≠
      min ((100 * 1) / 8) 99 := by
  decide

/-- C2 amended: after every folder-mode `updateProgress` with positive
total, the percent equals `min(round(completedBytes/total·100), 99)` with
half-up rounding (not floor), hence is at most 99: 100 can only come from
the manager's explicit completion assignment, never from a progress
sample. -/
theorem folder_percent_rounded_clamped (now : Nat) (d : ProgressSample) (s : TransferItem)
    (hf : s.isFolder = true) (ht : 0 < s.total) :
    (updateProgress now d s).percent =
      min ((200 * (updateProgress now d s).completedBytes + s.total) / (2 * s.total)) 99 ∧
    (updateProgress now d s).percent ≤ 99 := by
  refine ⟨updateProgress_folder_percent now d s hf ht, ?_⟩
  rw [updateProgress_folder_percent now d s hf ht]
  exact min_le_right _ _

theorem folder_percent_rounded_clamped_witness :
    (updateProgress 0 { filename := some ['a'], percent := some 100 }
        (setFileSizes [⟨['a'], 1⟩, ⟨['b'], 7⟩] 8
          (newTransferItem ['d'] ['d'] Direction.download ['l'] ['r']))).percent =
      min ((200 * (updateProgress 0 { filename := some ['a'], percent := some 100 }
        (setFileSizes [⟨['a'], 1⟩, ⟨['b'], 7⟩] 8
          (newTransferItem ['d'] ['d'] Direction.download ['l'] ['r']))).completedBytes + 8) /
          (2 * 8)) 99 ∧
    (updateProgress 0 { filename := some ['a'], percent := some 100 }
        (setFileSizes [⟨['a'], 1⟩, ⟨['b'], 7⟩] 8
          (newTransferItem ['d'] ['d'] Direction.download ['l'] ['r']))).percent ≤ 99 :=
  folder_percent_rounded_clamped 0 _ _ (by decide) (by decide)

theorem pct_mono (t cb cb' : Nat) (h : cb ≤ cb') :
    min ((200 * cb + t) / (2 * t)) 99 ≤ min ((200 * cb' + t) / (2 * t)) 99 :=
  min_le_min (Nat.div_le_div_right (by omega)) (le_refl 99)

/-- One folder-mode `updateProgress` call preserves the percent-tracks-bytes
invariant and never lowers the percent. -/
theorem updateProgress_folder_mono (now : Nat) (d : ProgressSample) (s : TransferItem)
    (hf : s.isFolder = true) (ht : 0 < s.total)
    (hp : s.percent ≤ min ((200 * s.completedBytes + s.total) / (2 * s.total)) 99) :
    s.percent ≤ (updateProgress now d s).percent ∧
    (updateProgress now d s).isFolder = true ∧
    (updateProgress now d s).total = s.total ∧
    (updateProgress now d s).percent ≤
      min ((200 * (updateProgress now d s).completedBytes +
            (updateProgress now d s).total) / (2 * (updateProgress now d s).total)) 99 := by
  have htot := updateProgress_total now d s
  have hfol := updateProgress_isFolder now d s
  have hpct := updateProgress_folder_percent now d s hf ht
  have hcb := updateProgress_completedBytes_ge now d s
  refine ⟨?_, by rw [hfol, hf], htot, ?_⟩
  · calc s.percent ≤ min ((200 * s.completedBytes + s.total) / (2 * s.total)) 99 := hp
      _ ≤ min ((200 * (updateProgress now d s).completedBytes + s.total) / (2 * s.total)) 99 :=
        pct_mono s.total _ _ hcb
      _ = (updateProgress now d s).percent := hpct.symm
  · rw [htot, hpct]

/-- The invariant holds along any run of samples. -/
theorem runUpdates_folder_inv (l : List (Nat × ProgressSample)) (s : TransferItem)
    (hf : s.isFolder = true) (ht : 0 < s.total)
    (hp : s.percent ≤ min ((200 * s.completedBytes + s.total) / (2 * s.total)) 99) :
    (runUpdates l s).isFolder = true ∧ (runUpdates l s).total = s.total ∧
    (runUpdates l s).percent ≤
      min ((200 * (runUpdates l s).completedBytes + (runUpdates l s).total) /
           (2 * (runUpdates l s).total)) 99 ∧
    s.percent ≤ (runUpdates l s).percent := by
  induction l generalizing s with
  | nil => exact ⟨hf, rfl, by simpa [runUpdates] using hp, le_refl _⟩
  | cons e rest ih =>
    have hstep := updateProgress_folder_mono e.1 e.2 s hf ht hp
    have hrun : runUpdates (e :: rest) s = runUpdates rest (updateProgress e.1 e.2 s) := rfl
    have ihr := ih (updateProgress e.1 e.2 s) hstep.2.1
      (hstep.2.2.1 ▸ ht) hstep.2.2.2
    rw [hrun]
    refine ⟨ihr.1, by rw [ihr.2.1, hstep.2.2.1], ihr.2.2.1, ?_⟩
    exact le_trans hstep.1 ihr.2.2.2

/-- C9: for a folder-mode item with positive total whose percent is in sync
with its byte counter (as for any freshly registered folder transfer), the
percent after any further `updateProgress` call is at least the percent
before it: the aggregate percent is monotonically non-decreasing across any
sequence of progress samples. -/
theorem folder_percent_monotone (s : TransferItem) (l : List (Nat × ProgressSample))
    (e : Nat × ProgressSample)
    (hf : s.isFolder = true) (ht : 0 < s.total)
    (hp : s.percent ≤ min ((200 * s.completedBytes + s.total) / (2 * s.total)) 99) :
    (runUpdates l s).percent ≤ (runUpdates (l ++ [e]) s).percent := by
  have hinv := runUpdates_folder_inv l s hf ht hp
  have happ : runUpdates (l ++ [e]) s = updateProgress e.1 e.2 (runUpdates l s) := by
    simp [runUpdates]
  rw [happ]
  exact (updateProgress_folder_mono e.1 e.2 (runUpdates l s) hinv.1
    (hinv.2.1 ▸ ht) hinv.2.2.1).1

theorem folder_percent_monotone_witness :
    (runUpdates [(0, { filename := some ['a'], percent := some 50 })]
        (setFileSizes [⟨['a'], 1⟩, ⟨['b'], 7⟩] 8
          (newTransferItem ['d'] ['d'] Direction.download ['l'] ['r']))).percent ≤
      (runUpdates ([(0, { filename := some ['a'], percent := some 50 })] ++
          [(1, { filename := some ['b'], percent := some 10 })])
        (setFileSizes [⟨['a'], 1⟩, ⟨['b'], 7⟩] 8
          (newTransferItem ['d'] ['d'] Direction.download ['l'] ['r']))).percent :=
  folder_percent_monotone _ _ _ (by decide) (by decide) (by decide)

/-- `consumeFirst` removes exactly one entry of the given name and no entry
of any other name. -/
theorem consumeFirst_count (nm : List Char) (l : List SizeEntry) (sz : Nat)
    (rest : List SizeEntry) (h : consumeFirst nm l = some (sz, rest)) :
    countName nm rest + 1 = countName nm l ∧
    (∀ other, other ≠ nm → countName other rest = countName other l) := by
  induction l generalizing rest with
  | nil => simp [consumeFirst] at h
  | cons e t ih =>
    by_cases he : e.name = nm
    · rw [consumeFirst, if_pos he] at h
      obtain ⟨heq1, heq2⟩ := Prod.mk.injEq (α := Nat) (β := List SizeEntry) _ _ _ _ ▸
        Option.some.inj h
      subst heq2
      constructor
      · simp [countName, he]
      · intro o ho
        have hne : ¬ e.name = o := by rw [he]; exact fun hx => ho hx.symm
        simp [countName, hne]
    · rw [consumeFirst, if_neg he] at h
      rcases Option.map_eq_some'.mp h with ⟨p, hp, hfp⟩
      obtain ⟨p1, p2⟩ := p
      obtain ⟨heq1, heq2⟩ := Prod.mk.injEq (α := Nat) (β := List SizeEntry) _ _ _ _ ▸ hfp
      subst heq1
      subst heq2
      obtain ⟨ihc, iho⟩ := ih p2 hp
      constructor
      · simpa [countName, he] using ihc
      · intro o ho
        have hoo := iho o ho
        by_cases heo : e.name = o
        · simp only [countName, List.filter] at hoo ⊢
          simp [heo] at hoo ⊢
          omega
        · simpa [countName, heo] using hoo

/-- Folder body, file-switch case: a sample naming a different file
finalizes the tracked current file: its registered size is credited once,
one matching entry leaves the pending multiset, and tracking moves to the
new name. -/
theorem folderBody_switch (d : ProgressSample) (x : TransferItem) (f : List Char)
    (sz : Nat) (rest : List SizeEntry)
    (hfn : d.filename = some f) (hne : f ≠ []) (hdiff : f ≠ x.currentFileName)
    (hnc : x.currentFileCompleted = false)
    (hcons : consumeFirst x.currentFileName x.fileSizes = some (sz, rest))
    (hcur : x.currentFileName ≠ [])
    (hp100 : d.percent ≠ some 100) :
    (updateProgressFolder d x).completedBytes = x.completedBytes + sz ∧
    (updateProgressFolder d x).fileSizes = rest ∧
    (updateProgressFolder d x).currentFileName = f ∧
    (updateProgressFolder d x).currentFileCompleted = false := by
  simp [updateProgressFolder, markCurrentFileCompleted, hfn, hne, hdiff, hnc, hcur,
    hcons, hp100]

/-- Folder body, 100% case: a sample naming the current file with percent
100 finalizes it in place. -/
theorem folderBody_hundred (d : ProgressSample) (x : TransferItem)
    (sz : Nat) (rest : List SizeEntry)
    (hfn : d.filename = some x.currentFileName)
    (hnc : x.currentFileCompleted = false)
    (hcons : consumeFirst x.currentFileName x.fileSizes = some (sz, rest))
    (hp : d.percent = some 100) :
    (updateProgressFolder d x).completedBytes = x.completedBytes + sz ∧
    (updateProgressFolder d x).fileSizes = rest ∧
    (updateProgressFolder d x).currentFileName = x.currentFileName ∧
    (updateProgressFolder d x).currentFileCompleted = true := by
  simp [updateProgressFolder, markCurrentFileCompleted, hfn, hnc, hcons, hp]

/-- C7: in folder mode a sample naming a different file finalizes the
tracked current file — its registered size is credited exactly once and
exactly one matching entry leaves the pending multiset (so duplicate names
across subdirectories are each counted once) — and a 100%-on-current-file
sample finalizes the current file the same way. -/
theorem folder_finalization :
    (∀ (now : Nat) (d : ProgressSample) (s : TransferItem) (f : List Char) (sz : Nat)
        (rest : List SizeEntry),
      s.isFolder = true → 0 < s.total →
      d.filename = some f → f ≠ [] → f ≠ s.currentFileName →
      s.currentFileName ≠ [] → s.currentFileCompleted = false →
      consumeFirst s.currentFileName s.fileSizes = some (sz, rest) →
      d.percent ≠ some 100 →
      (updateProgress now d s).completedBytes = s.completedBytes + sz ∧
      (updateProgress now d s).fileSizes = rest ∧
      countName s.currentFileName (updateProgress now d s).fileSizes + 1 =
        countName s.currentFileName s.fileSizes ∧
      (∀ o, o ≠ s.currentFileName →
        countName o (updateProgress now d s).fileSizes = countName o s.fileSizes) ∧
      (updateProgress now d s).currentFileName = f ∧
      (updateProgress now d s).currentFileCompleted = false) ∧
    (∀ (now : Nat) (d : ProgressSample) (s : TransferItem) (sz : Nat)
        (rest : List SizeEntry),
      s.isFolder = true → 0 < s.total →
      d.filename = some s.currentFileName → s.currentFileCompleted = false →
      consumeFirst s.currentFileName s.fileSizes = some (sz, rest) →
      d.percent = some 100 →
      (updateProgress now d s).completedBytes = s.completedBytes + sz ∧
      (updateProgress now d s).fileSizes = rest ∧
      (updateProgress now d s).currentFileCompleted = true) := by
  constructor
  · intro now d s f sz rest hf ht hfn hne hdiff hcur hnc hcons hp100
    have hsp := applySpeed_fields d s
    have hbody := folderBody_switch d (applySpeed d s) f sz rest hfn hne
      (by rw [hsp.2.2.2.2.2.2.2.1]; exact hdiff)
      (by rw [hsp.2.2.2.2.2.2.2.2]; exact hnc)
      (by rw [hsp.2.2.2.2.2.2.2.1, hsp.2.2.2.2.2.2.1]; exact hcons)
      (by rw [hsp.2.2.2.2.2.2.2.1]; exact hcur) hp100
    have hcond : ((applySpeed d s).isFolder && decide (0 < (applySpeed d s).total)) = true := by
      simp [hsp.2.2.2.1, hsp.2.2.1, hf, ht]
    have hrun : updateProgress now d s =
        computeEta now (updateProgressFolder d (applySpeed d s)) := by
      simp only [updateProgress, hcond, if_true]
    rw [hrun, computeEta_completedBytes, computeEta_fileSizes, computeEta_currentFileName,
      computeEta_currentFileCompleted]
    rw [hbody.1, hbody.2.1, hbody.2.2.1, hsp.2.1]
    have hcnt := consumeFirst_count s.currentFileName s.fileSizes sz rest hcons
    exact ⟨rfl, rfl, hcnt.1, hcnt.2, rfl, hbody.2.2.2⟩
  · intro now d s sz rest hf ht hfn hnc hcons hp
    have hsp := applySpeed_fields d s
    have hbody := folderBody_hundred d (applySpeed d s) sz rest
      (by rw [hsp.2.2.2.2.2.2.2.1]; exact hfn)
      (by rw [hsp.2.2.2.2.2.2.2.2]; exact hnc)
      (by rw [hsp.2.2.2.2.2.2.2.1, hsp.2.2.2.2.2.2.1]; exact hcons) hp
    have hcond : ((applySpeed d s).isFolder && decide (0 < (applySpeed d s).total)) = true := by
      simp [hsp.2.2.2.1, hsp.2.2.1, hf, ht]
    have hrun : updateProgress now d s =
        computeEta now (updateProgressFolder d (applySpeed d s)) := by
      simp only [updateProgress, hcond, if_true]
    rw [hrun, computeEta_completedBytes, computeEta_fileSizes, computeEta_currentFileCompleted]
    rw [hbody.1, hbody.2.1, hsp.2.1]
    exact ⟨rfl, rfl, hbody.2.2.2⟩

theorem folder_finalization_witness :
    (updateProgress 3 { filename := some ['b'], percent := some 50 }
        { setFileSizes [⟨['a'], 1⟩, ⟨['b'], 2⟩, ⟨['a'], 3⟩] 6
            (newTransferItem ['d'] ['d'] Direction.download ['l'] ['r']) with
          currentFileName := ['a'] }).completedBytes = 0 + 1 ∧
    (updateProgress 3 { filename := some ['b'], percent := some 50 }
        { setFileSizes [⟨['a'], 1⟩, ⟨['b'], 2⟩, ⟨['a'], 3⟩] 6
            (newTransferItem ['d'] ['d'] Direction.download ['l'] ['r']) with
          currentFileName := ['a'] }).fileSizes = [⟨['b'], 2⟩, ⟨['a'], 3⟩] ∧
    (updateProgress 3 { filename := some ['b'], percent := some 50 }
        { setFileSizes [⟨['a'], 1⟩, ⟨['b'], 2⟩, ⟨['a'], 3⟩] 6
            (newTransferItem ['d'] ['d'] Direction.download ['l'] ['r']) with
          currentFileName := ['a'] }).currentFileName = ['b'] := by
  have h := folder_finalization.1 3 { filename := some ['b'], percent := some 50 }
    { setFileSizes [⟨['a'], 1⟩, ⟨['b'], 2⟩, ⟨['a'], 3⟩] 6
        (newTransferItem ['d'] ['d'] Direction.download ['l'] ['r']) with
      currentFileName := ['a'] }
    ['b'] 1 [⟨['b'], 2⟩, ⟨['a'], 3⟩]
    (by decide) (by decide) rfl (by decide) (by decide) (by decide) (by decide)
    (by decide) (by decide)
  exact ⟨h.1, h.2.1, h.2.2.2.2.1⟩

/-! ## Lemmas: executeWork outcome bookkeeping -/

theorem runOutcomes_nil (m : TransferMeta) : runOutcomes [] m = m := rfl

theorem runOutcomes_cons (e : Nat × FileWork × WorkOutcome)
    (es : List (Nat × FileWork × WorkOutcome)) (m : TransferMeta) :
    runOutcomes (e :: es) m = runOutcomes es (applyOutcome e.1 e.2.1 e.2.2 m) := rfl

theorem countFailures_cons (e : Nat × FileWork × WorkOutcome)
    (es : List (Nat × FileWork × WorkOutcome)) :
    countFailures (e :: es) = (failureRecord e).toList.length + countFailures es := by
  cases h : failureRecord e <;>
    simp [countFailures, List.filterMap_cons, h, Nat.add_comm]

/-- A non-final outcome: the transfer stays active, the completion counter
advances by one, and a failure appends exactly its record. -/
theorem applyOutcome_mid (now : Nat) (work : FileWork) (o : WorkOutcome) (m : TransferMeta)
    (hst : m.item.status = TransferStatus.active)
    (hlt : m.completedFiles + 1 < m.totalFiles) :
    (applyOutcome now work o m).item.status = TransferStatus.active ∧
    (applyOutcome now work o m).completedFiles = m.completedFiles + 1 ∧
    (applyOutcome now work o m).totalFiles = m.totalFiles ∧
    (applyOutcome now work o m).item.failedFiles =
      m.item.failedFiles ++ (failureRecord (now, work, o)).toList := by
  have hcond : ¬(m.totalFiles ≤ m.completedFiles + 1) := by omega
  cases o with
  | workOk =>
    simp [applyOutcome, hcond, updateProgress_status, updateProgress_failedFiles,
      failureRecord, hst]
  | workFail err =>
    have hnc : ¬(m.item.status = TransferStatus.cancelled) := by
      rw [hst]; exact fun h => TransferStatus.noConfusion h
    have hT : 1 < m.totalFiles := by omega
    simp [applyOutcome, hcond, hnc, hT, updateProgress_status, updateProgress_failedFiles,
      failureRecord, hst]

/-- The final outcome: with as many prior failures as prior completions at
most, the run ends failed exactly when every file (including this one)
failed, else completed; the failure list gains exactly this record. -/
theorem applyOutcome_last (now : Nat) (work : FileWork) (o : WorkOutcome) (m : TransferMeta)
    (hst : m.item.status = TransferStatus.active)
    (heq : m.completedFiles + 1 = m.totalFiles) (hT : 1 < m.totalFiles)
    (hfl : m.item.failedFiles.length ≤ m.completedFiles) :
    (applyOutcome now work o m).item.failedFiles =
      m.item.failedFiles ++ (failureRecord (now, work, o)).toList ∧
    (applyOutcome now work o m).item.status =
      (if m.totalFiles ≤ m.item.failedFiles.length + (failureRecord (now, work, o)).toList.length
       then TransferStatus.failed else TransferStatus.completed) := by
  have hcond : m.totalFiles ≤ m.completedFiles + 1 := by omega
  cases o with
  | workOk =>
    have hne : ¬(m.totalFiles ≤ m.item.failedFiles.length) := by omega
    simp [applyOutcome, hcond, updateProgress_status, updateProgress_failedFiles,
      failureRecord, hne]
  | workFail err =>
    have hnc : ¬(m.item.status = TransferStatus.cancelled) := by
      rw [hst]; exact fun h => TransferStatus.noConfusion h
    by_cases hall : m.totalFiles ≤ m.item.failedFiles.length + 1
    · simp [applyOutcome, hcond, hnc, hT, updateProgress_status, updateProgress_failedFiles,
        failureRecord, hall]
    · simp [applyOutcome, hcond, hnc, hT, updateProgress_status, updateProgress_failedFiles,
        failureRecord, hall]

/-- Characterisation of a whole folder run from any active mid-point. -/
theorem runOutcomes_char (events : List (Nat × FileWork × WorkOutcome)) (m : TransferMeta)
    (hst : m.item.status = TransferStatus.active)
    (hcnt : m.completedFiles + events.length = m.totalFiles)
    (hfl : m.item.failedFiles.length ≤ m.completedFiles)
    (hne : events ≠ []) (hT : 1 < m.totalFiles) :
    (runOutcomes events m).item.failedFiles =
      m.item.failedFiles ++ events.filterMap failureRecord ∧
    (runOutcomes events m).item.status =
      (if m.totalFiles ≤ m.item.failedFiles.length + countFailures events
       then TransferStatus.failed else TransferStatus.completed) := by
  induction events generalizing m with
  | nil => exact absurd rfl hne
  | cons e es ih =>
    obtain ⟨tnow, wrk, oc⟩ := e
    rw [runOutcomes_cons]
    cases es with
    | nil =>
      have heq : m.completedFiles + 1 = m.totalFiles := by
        simpa using hcnt
      have hlast := applyOutcome_last tnow wrk oc m hst heq hT hfl
      rw [runOutcomes_nil]
      refine ⟨?_, ?_⟩
      · rw [hlast.1]
        cases h : failureRecord (tnow, wrk, oc) <;>
          simp [List.filterMap_cons, h]
      · rw [hlast.2, countFailures_cons]
        simp [countFailures]
    | cons e' es' =>
      have hlt : m.completedFiles + 1 < m.totalFiles := by
        simp [List.length_cons] at hcnt
        omega
      have hmid := applyOutcome_mid tnow wrk oc m hst hlt
      have hc1 := hmid.2.1
      have hc2 := hmid.2.2.1
      have hc3 := hmid.2.2.2
      have hrl : (failureRecord (tnow, wrk, oc)).toList.length ≤ 1 := by
        cases h : failureRecord (tnow, wrk, oc) <;> simp [h]
      have harg1 : (applyOutcome tnow wrk oc m).completedFiles + (e' :: es').length =
          (applyOutcome tnow wrk oc m).totalFiles := by
        rw [hc1, hc2]
        simp [List.length_cons] at hcnt ⊢
        omega
      have harg2 : (applyOutcome tnow wrk oc m).item.failedFiles.length ≤
          (applyOutcome tnow wrk oc m).completedFiles := by
        rw [hc1, hc3, List.length_append]
        omega
      have ihr := ih (applyOutcome tnow wrk oc m) hmid.1 harg1 harg2
        (fun h => List.noConfusion h) (hc2 ▸ hT)
      refine ⟨?_, ?_⟩
      · rw [ihr.1, hc3, List.append_assoc]
        congr 1
        cases h : failureRecord (tnow, wrk, oc) <;> simp [List.filterMap_cons, h]
      · rw [ihr.2, hc2, hc3, List.length_append]
        have hcc : countFailures ((tnow, wrk, oc) :: e' :: es') =
            (failureRecord (tnow, wrk, oc)).toList.length + countFailures (e' :: es') :=
          countFailures_cons _ _
        rw [hcc, Nat.add_assoc]

/-- C3: a fresh multi-file transfer whose M files each terminate exactly
once ends completed with exactly one failure record per failing file (each
carrying name, error, source and destination) when 0 < N < M, and failed
when N = M. -/
theorem folder_partial_failure (events : List (Nat × FileWork × WorkOutcome))
    (m : TransferMeta)
    (hst : m.item.status = TransferStatus.active)
    (hc0 : m.completedFiles = 0)
    (hf0 : m.item.failedFiles = [])
    (htot : m.totalFiles = events.length)
    (hM : 1 < events.length) :
    (runOutcomes events m).item.failedFiles = events.filterMap failureRecord ∧
    (runOutcomes events m).item.failedFiles.length = countFailures events ∧
    (0 < countFailures events → countFailures events < events.length →
      (runOutcomes events m).item.status = TransferStatus.completed) ∧
    (countFailures events = events.length →
      (runOutcomes events m).item.status = TransferStatus.failed) := by
  have hne : events ≠ [] := by
    cases events with
    | nil => simp at hM
    | cons a b => exact fun h => List.noConfusion h
  have hchar := runOutcomes_char events m hst (by omega) (by simp [hf0, hc0]) hne (by omega)
  have hfails : (runOutcomes events m).item.failedFiles = events.filterMap failureRecord := by
    rw [hchar.1, hf0, List.nil_append]
  refine ⟨hfails, by rw [hfails]; rfl, ?_, ?_⟩
  · intro _ hlt
    rw [hchar.2, hf0]
    rw [if_neg (by simp; omega)]
  · intro heq
    rw [hchar.2, hf0]
    rw [if_pos (by simp; omega)]

theorem folder_partial_failure_witness :
    (runOutcomes
        [(0, ⟨['t'], ['s', '1'], ['d'], Direction.download, 5, ['a']⟩, WorkOutcome.workOk),
         (1, ⟨['t'], ['s', '2'], ['d'], Direction.download, 5, ['b']⟩,
            WorkOutcome.workFail ['e']),
         (2, ⟨['t'], ['s', '3'], ['d'], Direction.download, 5, ['c']⟩,
            WorkOutcome.workFail ['f'])]
        { item := { newTransferItem ['t'] ['t'] Direction.download ['l'] ['r'] with
                    status := TransferStatus.active },
          totalFiles := 3, completedFiles := 0 }).item.status = TransferStatus.completed ∧
    (runOutcomes
        [(0, ⟨['t'], ['s', '1'], ['d'], Direction.download, 5, ['a']⟩, WorkOutcome.workOk),
         (1, ⟨['t'], ['s', '2'], ['d'], Direction.download, 5, ['b']⟩,
            WorkOutcome.workFail ['e']),
         (2, ⟨['t'], ['s', '3'], ['d'], Direction.download, 5, ['c']⟩,
            WorkOutcome.workFail ['f'])]
        { item := { newTransferItem ['t'] ['t'] Direction.download ['l'] ['r'] with
                    status := TransferStatus.active },
          totalFiles := 3, completedFiles := 0 }).item.failedFiles.length = 2 := by
  refine ⟨(folder_partial_failure _ _ rfl rfl rfl rfl (by decide)).2.2.1
    (by decide) (by decide), ?_⟩
  rw [(folder_partial_failure _ _ rfl rfl rfl rfl (by decide)).2.1]
  decide

/-! ## Lemmas: session-pool counting -/

/-- Every pool operation keeps the idle count within the headroom left by
the active count. -/
theorem poolStep_inv (s : PoolState) (op : PoolOp)
    (h : s.idle ≤ s.maxConcurrent - s.active) :
    (poolStep s op).idle ≤ (poolStep s op).maxConcurrent - (poolStep s op).active := by
  cases op <;>
    (simp only [poolStep]
     repeat' split
     all_goals
       (try simp only [Bool.and_eq_true, decide_eq_true_eq, Nat.not_lt, Nat.not_le] at *
        try dsimp only
        omega))

theorem runPool_inv (ops : List PoolOp) (s : PoolState)
    (h : s.idle ≤ s.maxConcurrent - s.active) :
    (runPool ops s).idle ≤ (runPool ops s).maxConcurrent - (runPool ops s).active := by
  induction ops generalizing s with
  | nil => exact h
  | cons op rest ih => exact ih (poolStep s op) (poolStep_inv s op h)

/-- C4 counterexample: two admissions fill the pool to the maximum of 2;
lowering the maximum to 1 only trims idle sessions (there are none), so
idle + active = 2 exceeds the new maximum 1 immediately afterwards. -/
theorem pool_bound_counterexample :
    (runPool [PoolOp.admitNew 0, PoolOp.admitNew 0, PoolOp.setMax 1]
        (initialPool 2)).idle +
      (runPool [PoolOp.admitNew 0, PoolOp.admitNew 0, PoolOp.setMax 1]
        (initialPool 2)).active = 2 ∧
    (runPool [PoolOp.admitNew 0, PoolOp.admitNew 0, PoolOp.setMax 1]
        (initialPool 2)).maxConcurrent = 1 ∧
    ¬((runPool [PoolOp.admitNew 0, PoolOp.admitNew 0, PoolOp.setMax 1]
        (initialPool 2)).idle +
      (runPool [PoolOp.admitNew 0, PoolOp.admitNew 0, PoolOp.setMax 1]
        (initialPool 2)).active ≤
      (runPool [PoolOp.admitNew 0, PoolOp.admitNew 0, PoolOp.setMax 1]
        (initialPool 2)).maxConcurrent) := by
  decide

/-- C4 amended: after any sequence of pool operations from a fresh manager,
the idle count never exceeds the headroom `max - active` (clamped at 0), so
idle + active ≤ max(configured max, active): the configured bound can only
be exceeded by sessions that were already active when the maximum was
lowered, and never by pooled idle sessions. -/
theorem pool_bound_holds (ops : List PoolOp) (m : Nat) :
    (runPool ops (initialPool m)).idle ≤
      (runPool ops (initialPool m)).maxConcurrent - (runPool ops (initialPool m)).active ∧
    (runPool ops (initialPool m)).idle + (runPool ops (initialPool m)).active ≤
      max (runPool ops (initialPool m)).maxConcurrent (runPool ops (initialPool m)).active := by
  have h := runPool_inv ops (initialPool m) (by simp [initialPool])
  exact ⟨h, by omega⟩

/-- C5: cancelling an active transfer deletes the whole destination when
the transfer is not a folder or the mode is remove-all; under
remove-partial on a folder it deletes exactly the files in flight at the
moment of cancellation, and touches no other path (completed files are
preserved). -/
theorem cancel_cleanup_targets (item : TransferItem) (mode : CleanupMode)
    (actives : List ActiveEntry) :
    ((item.isFolder = false ∨ mode = CleanupMode.removeAll) →
      ∀ mc, cancelDeletions mc item mode actives = wholeDelete mc item) ∧
    (item.isFolder = true → mode = CleanupMode.removePartial →
      cancelDeletions true item mode actives =
        (inFlightFor item.id actives).filterMap (partialDelete true) ∧
      (∀ a ∈ cancelDeletions true item mode actives,
        ∃ w ∈ inFlightFor item.id actives, partialDelete true w = some a) ∧
      (∀ p, (∀ w ∈ inFlightFor item.id actives, joinPath w.destPath w.filename ≠ p) →
        DelAction.delLocal p ∉ cancelDeletions true item mode actives ∧
        DelAction.delRemoteFile p ∉ cancelDeletions true item mode actives ∧
        DelAction.delRemoteDir p ∉ cancelDeletions true item mode actives)) := by
  constructor
  · intro hwhole mc
    unfold cancelDeletions
    rcases hwhole with hnf | hall
    · rw [if_pos (by simp [hnf])]
    · rw [if_pos (by simp [hall])]
  · intro hfold hpart
    have hpdel : cancelDeletions true item mode actives =
        (inFlightFor item.id actives).filterMap (partialDelete true) := by
      unfold cancelDeletions
      rw [if_neg (by simp [hfold, hpart])]
    have hmem : ∀ a ∈ cancelDeletions true item mode actives,
        ∃ w ∈ inFlightFor item.id actives, partialDelete true w = some a := by
      intro a ha
      rw [hpdel] at ha
      exact List.mem_filterMap.mp ha
    refine ⟨hpdel, hmem, ?_⟩
    intro p hp
    refine ⟨?_, ?_, ?_⟩
    · intro hin
      rcases hmem _ hin with ⟨w, hw, hdel⟩
      cases hd : w.direction with
      | download =>
        unfold partialDelete at hdel
        rw [hd] at hdel
        have := Option.some.inj hdel
        exact hp w hw (DelAction.delLocal.inj this)
      | upload =>
        unfold partialDelete at hdel
        rw [hd] at hdel
        simp at hdel
    · intro hin
      rcases hmem _ hin with ⟨w, hw, hdel⟩
      cases hd : w.direction with
      | download =>
        unfold partialDelete at hdel
        rw [hd] at hdel
        simp at hdel
      | upload =>
        unfold partialDelete at hdel
        rw [hd] at hdel
        simp at hdel
        exact hp w hw hdel
    · intro hin
      rcases hmem _ hin with ⟨w, hw, hdel⟩
      cases hd : w.direction with
      | download =>
        unfold partialDelete at hdel
        rw [hd] at hdel
        simp at hdel
      | upload =>
        unfold partialDelete at hdel
        rw [hd] at hdel
        simp at hdel

theorem cancel_cleanup_targets_witness :
    cancelDeletions true
        { setFileSizes [⟨['a'], 1⟩] 1
            (newTransferItem ['t'] ['d'] Direction.download ['l'] ['r']) with
          status := TransferStatus.active }
        CleanupMode.removePartial
        [⟨['s', '1'], ⟨['t'], ['r', '/', 'a'], ['l', '/', 'd'], Direction.download, 1, ['a']⟩⟩,
         ⟨['s', '2'], ⟨['u'], ['r', '/', 'b'], ['l', '/', 'd'], Direction.download, 1, ['b']⟩⟩] =
      [DelAction.delLocal ['l', '/', 'd', '/', 'a']] ∧
    DelAction.delLocal ['l', '/', 'd', '/', 'b'] ∉
      cancelDeletions true
        { setFileSizes [⟨['a'], 1⟩] 1
            (newTransferItem ['t'] ['d'] Direction.download ['l'] ['r']) with
          status := TransferStatus.active }
        CleanupMode.removePartial
        [⟨['s', '1'], ⟨['t'], ['r', '/', 'a'], ['l', '/', 'd'], Direction.download, 1, ['a']⟩⟩,
         ⟨['s', '2'], ⟨['u'], ['r', '/', 'b'], ['l', '/', 'd'], Direction.download, 1, ['b']⟩⟩] := by
  constructor
  · rw [(cancel_cleanup_targets _ _ _).2 (by decide) rfl |>.1]
    decide
  · exact ((cancel_cleanup_targets _ _ _).2 (by decide) rfl).2.2 ['l', '/', 'd', '/', 'b']
      (by decide) |>.1

/-! ## Lemmas: sentinel framing -/

/-- A resolution event is emitted by the buffer phase exactly when
`'\n' + sentinel` occurs in the accumulated buffer, and its payload is the
cleaned output preceding the first occurrence. -/
theorem handleBufferPhase_resolved_iff (s : SessState) (data : List Char) (cmd : Cmd)
    (out : List Char) (hc : s.currentCommand = some cmd) :
    (SessEvent.resolved cmd out ∈ (handleBufferPhase s data).2 ↔
      ∃ i, indexOfSub (s.buffer ++ data.filter (fun c => c ≠ '\r'))
            ('\n' :: cmd.sentinel) = some i ∧
        out = cleanCommandOutput
          ((s.buffer ++ data.filter (fun c => c ≠ '\r')).take i) cmd.command) := by
  simp only [handleBufferPhase, hc]
  cases hidx : indexOfSub (s.buffer ++ data.filter (fun c => c ≠ '\r'))
      ('\n' :: cmd.sentinel) with
  | none =>
    simp only [hidx]
    split <;> simp
  | some i =>
    simp only [hidx]
    split <;>
      simp only [List.mem_append, List.mem_singleton, List.mem_cons,
        List.not_mem_nil, or_false] <;>
      constructor
    · rintro (h | h)
      · exact ⟨i, rfl, (SessEvent.resolved.inj h).2⟩
      · exact absurd h (fun h => SessEvent.noConfusion h)
    · rintro ⟨j, hj, hout⟩
      obtain rfl : i = j := Option.some.inj hj
      exact Or.inl (by rw [hout])
    · rintro h
      exact ⟨i, rfl, (SessEvent.resolved.inj h).2⟩
    · rintro ⟨j, hj, hout⟩
      obtain rfl : i = j := Option.some.inj hj
      rw [hout]

/-- A chunk containing a newline always goes through the buffer phase (the
progress probe only fires on `\r`-bearing, newline-free chunks). -/
theorem handleData_of_newline (s : SessState) (data : List Char)
    (hn : data.contains '\n' = true) :
    handleData s data = handleBufferPhase s data := by
  unfold handleData
  rw [hn]
  simp

/-- C1 counterexample: with sentinel `__DONE_A__` in flight, the chunk
`"ok\n__DONE_A__Z\n"` resolves the command (the marker `'\n' + sentinel`
occurs) although no line of the output stream is exactly equal to the
sentinel — the sentinel line carries a trailing `Z`. -/
theorem sentinel_exact_line_counterexample :
    (handleData
        { connected := true, connecting := false, buffer := [],
          currentCommand := some ⟨"ls".toList, "__DONE_A__".toList, 0⟩,
          commandQueue := [] }
        ("ok\n__DONE_A__Z\n".toList)).2 =
      [SessEvent.resolved ⟨"ls".toList, "__DONE_A__".toList, 0⟩ ['o', 'k']] ∧
    (∀ line ∈ splitNl (([] : List Char) ++
        ("ok\n__DONE_A__Z\n".toList).filter (fun c => c ≠ '\r')),
      line ≠ "__DONE_A__".toList) := by
  decide

/-- C1 amended: for a connected session with an in-flight command, a chunk
carrying a newline resolves that command exactly when the accumulated,
`\r`-stripped output contains a newline immediately followed by the
sentinel (a line starting with — not necessarily exactly equal to — the
sentinel), and the resolved value is the output before that first marker,
cleaned of the echoed command text, stray control characters and idle
prompts by `cleanCommandOutput`. -/
theorem sentinel_resolution (s : SessState) (data : List Char) (cmd : Cmd)
    (hc : s.currentCommand = some cmd) (hn : data.contains '\n' = true) :
    ((∃ out, SessEvent.resolved cmd out ∈ (handleData s data).2) ↔
      ∃ a b, s.buffer ++ data.filter (fun c => c ≠ '\r') =
        a ++ ('\n' :: cmd.sentinel) ++ b) ∧
    (∀ out, SessEvent.resolved cmd out ∈ (handleData s data).2 →
      ∃ i, indexOfSub (s.buffer ++ data.filter (fun c => c ≠ '\r'))
            ('\n' :: cmd.sentinel) = some i ∧
        out = cleanCommandOutput
          ((s.buffer ++ data.filter (fun c => c ≠ '\r')).take i) cmd.command) := by
  rw [handleData_of_newline s data hn]
  constructor
  · constructor
    · rintro ⟨out, hout⟩
      rcases (handleBufferPhase_resolved_iff s data cmd out hc).mp hout with ⟨i, hi, _⟩
      have hsome : (indexOfSub (s.buffer ++ data.filter (fun c => c ≠ '\r'))
          ('\n' :: cmd.sentinel)).isSome = true := by rw [hi]; rfl
      exact (indexOfSub_isSome_iff _ _).mp hsome
    · intro hdecomp
      have hsome := (indexOfSub_isSome_iff
        (s.buffer ++ data.filter (fun c => c ≠ '\r')) ('\n' :: cmd.sentinel)).mpr hdecomp
      rcases Option.isSome_iff_exists.mp hsome with ⟨i, hi⟩
      exact ⟨cleanCommandOutput
          ((s.buffer ++ data.filter (fun c => c ≠ '\r')).take i) cmd.command,
        (handleBufferPhase_resolved_iff s data cmd _ hc).mpr ⟨i, hi, rfl⟩⟩
  · intro out hout
    exact (handleBufferPhase_resolved_iff s data cmd out hc).mp hout

theorem sentinel_resolution_witness :
    ∃ out, SessEvent.resolved ⟨"ls".toList, "__DONE_A__".toList, 0⟩ out ∈
      (handleData
        { connected := true, connecting := false, buffer := [],
          currentCommand := some ⟨"ls".toList, "__DONE_A__".toList, 0⟩,
          commandQueue := [] }
        ("ok\n__DONE_A__\n".toList)).2 :=
  (sentinel_resolution _ _ _ rfl (by decide)).1.mpr
    ⟨['o', 'k'], "\n".toList, by decide⟩

/-! ## Lemmas: classifiers fire only on matching input -/

theorem containsCI_iff (needle hay : List Char) :
    containsCI needle hay = true ↔ ∃ a b, lowStr hay = a ++ lowStr needle ++ b := by
  unfold containsCI
  exact isSubstr_iff _ _

theorem detectHostKeyPrompt_none_iff (output : List Char) :
    detectHostKeyPrompt output = none ↔
      ¬∃ a b, lowStr output =
        a ++ lowStr ("are you sure you want to continue connecting".toList) ++ b := by
  unfold detectHostKeyPrompt
  by_cases h : containsCI ("are you sure you want to continue connecting".toList) output
  · rw [if_pos h]
    exact ⟨fun hx => Option.noConfusion hx,
           fun hno => absurd ((containsCI_iff _ _).mp h) hno⟩
  · rw [if_neg h]
    simp only [true_iff]
    intro hd
    exact h ((containsCI_iff _ _).mpr hd)

theorem detectAuthPrompt_false_iff (output : List Char) :
    detectAuthPrompt output = false ↔
      (¬∃ a b, lowStr output = a ++ lowStr ("password:".toList) ++ b) ∧
      (¬∃ a b, lowStr output = a ++ lowStr ("passphrase for key".toList) ++ b) := by
  unfold detectAuthPrompt
  rw [Bool.or_eq_false_iff]
  constructor
  · rintro ⟨h1, h2⟩
    constructor
    · intro hd; rw [(containsCI_iff _ _).mpr hd] at h1; exact Bool.noConfusion h1
    · intro hd; rw [(containsCI_iff _ _).mpr hd] at h2; exact Bool.noConfusion h2
  · rintro ⟨h1, h2⟩
    constructor
    · cases hc : containsCI ("password:".toList) output with
      | false => rfl
      | true => exact absurd ((containsCI_iff _ _).mp hc) h1
    · cases hc : containsCI ("passphrase for key".toList) output with
      | false => rfl
      | true => exact absurd ((containsCI_iff _ _).mp hc) h2

theorem detectSftpPrompt_true_iff (output : List Char) :
    detectSftpPrompt output = true ↔
      ∃ a w, output = a ++ "sftp>".toList ++ w ∧ ∀ c ∈ w, isSp c := by
  unfold detectSftpPrompt
  constructor
  · intro h
    rcases List.isPrefixOf_iff_prefix.mp h with ⟨u, hu⟩
    refine ⟨u.reverse, (output.reverse.takeWhile isSp).reverse, ?_, ?_⟩
    · have hsplit : output.reverse.takeWhile isSp ++ output.reverse.dropWhile isSp =
          output.reverse := List.takeWhile_append_dropWhile (p := isSp) (l := output.reverse)
      have : output.reverse =
          output.reverse.takeWhile isSp ++ ("sftp>".toList.reverse ++ u) := by
        rw [← hu] at hsplit
        exact hsplit.symm
      calc output = output.reverse.reverse := (List.reverse_reverse output).symm
        _ = (output.reverse.takeWhile isSp ++ ("sftp>".toList.reverse ++ u)).reverse := by
            rw [← this]
        _ = u.reverse ++ "sftp>".toList ++ (output.reverse.takeWhile isSp).reverse := by
            simp
    · intro c hc
      exact List.mem_takeWhile_imp (List.mem_reverse.mp hc)
  · rintro ⟨a, w, rfl, hw⟩
    have hrev : (a ++ "sftp>".toList ++ w).reverse =
        w.reverse ++ ("sftp>".toList.reverse ++ a.reverse) := by simp
    rw [hrev]
    rw [dropWhile_append_of_all isSp w.reverse _
      (fun c hc => hw c (List.mem_reverse.mp hc))]
    have hdrop : ("sftp>".toList.reverse ++ a.reverse).dropWhile isSp =
        "sftp>".toList.reverse ++ a.reverse := by
      simp [List.dropWhile, isSp]
    rw [hdrop]
    exact List.isPrefixOf_iff_prefix.mpr ⟨a.reverse, rfl⟩

theorem detectConnectionError_none_iff (output : List Char) :
    detectConnectionError output = none ↔
      ∀ p ∈ errorPatterns, ¬∃ a b, lowStr output = a ++ lowStr p ++ b := by
  unfold detectConnectionError
  cases hf : errorPatterns.find? (fun p => containsCI p output) with
  | none =>
    simp only [true_iff]
    rw [List.find?_eq_none] at hf
    intro p hp hd
    exact absurd ((containsCI_iff _ _).mpr hd) (by simpa using hf p hp)
  | some q =>
    have hq : containsCI q output = true := by
      have := List.find?_some hf
      simpa using this
    have hmem : q ∈ errorPatterns := List.mem_of_find?_eq_some hf
    have hsome : (indexOfCI output q).isSome = true := by
      unfold indexOfCI
      rw [indexOfSub_isSome_eq]
      exact hq
    rcases Option.isSome_iff_exists.mp hsome with ⟨i, hi⟩
    simp only [hi, Option.map_some]
    constructor
    · intro h; exact Option.noConfusion h
    · intro hall
      exact absurd ((containsCI_iff _ _).mp hq) (hall q hmem)

theorem takeWhile_all (p : Char → Bool) (l : List Char) :
    ∀ c ∈ l.takeWhile p, p c := fun _ hc => List.mem_takeWhile_imp hc

/-- Success of the progress-regex tail scanner exhibits the decomposition
of the remainder into the regex's pieces. -/
theorem tpTail_sound (rest : List Char) (r : Nat × List Char × List Char × List Char)
    (h : tpTail rest = some r) :
    ∃ w1 d w2 t1 w3 t2 w4 t3 w5,
      rest = w1 ++ d ++ '%' :: (w2 ++ t1 ++ w3 ++ t2 ++ w4 ++ t3 ++ w5) ∧
      w1 ≠ [] ∧ (∀ c ∈ w1, isSp c) ∧
      d ≠ [] ∧ (∀ c ∈ d, isDigitCh c) ∧
      w2 ≠ [] ∧ (∀ c ∈ w2, isSp c) ∧
      t1 ≠ [] ∧ (∀ c ∈ t1, nonSp c) ∧
      w3 ≠ [] ∧ (∀ c ∈ w3, isSp c) ∧
      3 ≤ t2.length ∧ ['/', 's'].isSuffixOf t2 ∧ (∀ c ∈ t2, nonSp c) ∧
      w4 ≠ [] ∧ (∀ c ∈ w4, isSp c) ∧
      t3 ≠ [] ∧ (∀ c ∈ t3, nonSp c) ∧
      (∀ c ∈ w5, isSp c) := by
  simp only [tpTail] at h
  split_ifs at h with hw1 hd
  rcases hmatch : rest.dropWhile isSp |>.dropWhile isDigitCh with _ | ⟨c0, r3⟩
  · rw [hmatch] at h
    exact absurd h (fun hx => Option.noConfusion hx)
  rw [hmatch] at h
  by_cases hc0 : c0 = '%'
  case neg =>
    exfalso
    revert h
    cases c0 <;> simp_all
  subst hc0
  simp only [] at h
  split_ifs at h with hw2 ht1 hw3 ht2 hw4 ht3 hall
  simp only [Bool.or_eq_true, not_or, decide_eq_true_eq, Bool.not_eq_true,
    Bool.not_eq_false, Nat.not_lt] at ht2
  have hnested : rest =
      rest.takeWhile isSp ++
        ((rest.dropWhile isSp).takeWhile isDigitCh ++ '%' ::
          (r3.takeWhile isSp ++
            ((r3.dropWhile isSp).takeWhile nonSp ++
              (((r3.dropWhile isSp).dropWhile nonSp).takeWhile isSp ++
                ((((r3.dropWhile isSp).dropWhile nonSp).dropWhile isSp).takeWhile nonSp ++
                  (((((r3.dropWhile isSp).dropWhile nonSp).dropWhile isSp).dropWhile
                      nonSp).takeWhile isSp ++
                    ((((((r3.dropWhile isSp).dropWhile nonSp).dropWhile isSp).dropWhile
                        nonSp).dropWhile isSp).takeWhile nonSp ++
                      (((((r3.dropWhile isSp).dropWhile nonSp).dropWhile isSp).dropWhile
                          nonSp).dropWhile isSp).dropWhile nonSp))))))) := by
    conv_lhs => rw [← List.takeWhile_append_dropWhile (p := isSp) (l := rest)]
    congr 1
    conv_lhs =>
      rw [← List.takeWhile_append_dropWhile (p := isDigitCh) (l := rest.dropWhile isSp)]
    congr 1
    rw [hmatch]
    congr 1
    conv_lhs => rw [← List.takeWhile_append_dropWhile (p := isSp) (l := r3)]
    congr 1
    conv_lhs =>
      rw [← List.takeWhile_append_dropWhile (p := nonSp) (l := r3.dropWhile isSp)]
    congr 1
    conv_lhs =>
      rw [← List.takeWhile_append_dropWhile (p := isSp)
        (l := (r3.dropWhile isSp).dropWhile nonSp)]
    congr 1
    conv_lhs =>
      rw [← List.takeWhile_append_dropWhile (p := nonSp)
        (l := ((r3.dropWhile isSp).dropWhile nonSp).dropWhile isSp)]
    congr 1
    conv_lhs =>
      rw [← List.takeWhile_append_dropWhile (p := isSp)
        (l := (((r3.dropWhile isSp).dropWhile nonSp).dropWhile isSp).dropWhile nonSp)]
    congr 1
    conv_lhs =>
      rw [← List.takeWhile_append_dropWhile (p := nonSp)
        (l := ((((r3.dropWhile isSp).dropWhile nonSp).dropWhile isSp).dropWhile
          nonSp).dropWhile isSp)]
  refine ⟨rest.takeWhile isSp, (rest.dropWhile isSp).takeWhile isDigitCh,
    r3.takeWhile isSp, (r3.dropWhile isSp).takeWhile nonSp,
    ((r3.dropWhile isSp).dropWhile nonSp).takeWhile isSp,
    (((r3.dropWhile isSp).dropWhile nonSp).dropWhile isSp).takeWhile nonSp,
    ((((r3.dropWhile isSp).dropWhile nonSp).dropWhile isSp).dropWhile nonSp).takeWhile isSp,
    (((((r3.dropWhile isSp).dropWhile nonSp).dropWhile isSp).dropWhile nonSp).dropWhile
      isSp).takeWhile nonSp,
    (((((r3.dropWhile isSp).dropWhile nonSp).dropWhile isSp).dropWhile nonSp).dropWhile
      isSp).dropWhile nonSp,
    by simpa [List.append_assoc] using hnested,
    hw1, takeWhile_all _ _, hd, takeWhile_all _ _,
    hw2, takeWhile_all _ _, ht1, takeWhile_all _ _,
    hw3, takeWhile_all _ _, ht2.1, by simpa using ht2.2, takeWhile_all _ _,
    hw4, takeWhile_all _ _, ht3, takeWhile_all _ _,
    fun c hc => List.all_eq_true.mp hall c hc⟩

/-- The split-point search only succeeds on input matching the whole
progress regex. -/
theorem tpGo_sound (rest : List Char) :
    ∀ (acc : List Char) (r : List Char × Nat × List Char × List Char × List Char),
    '\n' ∉ acc → tpGo acc rest = some r → tpShape (acc ++ rest) := by
  induction rest with
  | nil =>
    intro acc r _ h
    exact absurd h (fun hx => Option.noConfusion hx)
  | cons c rest ih =>
    intro acc r hacc h
    rw [tpGo] at h
    by_cases hc : c = '\n'
    · rw [if_pos hc] at h
      exact absurd h (fun hx => Option.noConfusion hx)
    rw [if_neg hc] at h
    cases htail : tpTail rest with
    | some tr =>
      obtain ⟨d0, t10, t20, t30⟩ := tr
      rcases tpTail_sound rest (d0, t10, t20, t30) htail with
        ⟨w1, d, w2, t1, w3, t2, w4, t3, w5, hdec, hprops⟩
      refine ⟨acc ++ [c], w1, d, w2, t1, w3, t2, w4, t3, w5, ?_, ?_, ?_, hprops⟩
      · rw [hdec]
        simp
      · simp
      · intro hmem
        rcases List.mem_append.mp hmem with hx | hx
        · exact hacc hx
        · exact hc (List.mem_singleton.mp hx).symm
    | none =>
      rw [htail] at h
      have hres := ih (acc ++ [c]) r
        (by
          intro hmem
          rcases List.mem_append.mp hmem with hx | hx
          · exact hacc hx
          · exact hc (List.mem_singleton.mp hx).symm) h
      simpa using hres

/-- C8 helper: a produced progress event implies the line matches the
progress pattern. -/
theorem parseTransferProgress_sound (line : List Char) (p : ProgressSample)
    (h : parseTransferProgress line = some p) : tpShape line := by
  unfold parseTransferProgress at h
  cases hgo : tpGo [] line with
  | none =>
    rw [hgo] at h
    exact absurd h (fun hx => Option.noConfusion hx)
  | some r =>
    simpa using tpGo_sound line [] r (by simp) hgo

/-- Success of a mandatory class run exhibits the split. -/
theorem reqRun_sound (p : Char → Bool) (l a r : List Char)
    (h : reqRun p l = some (a, r)) :
    l = a ++ r ∧ a ≠ [] ∧ (∀ c ∈ a, p c) := by
  unfold reqRun at h
  split_ifs at h with hne
  obtain ⟨h1, h2⟩ := Prod.mk.injEq (α := List Char) (β := List Char) _ _ _ _ ▸
    Option.some.inj h
  subst h1
  subst h2
  exact ⟨(List.takeWhile_append_dropWhile p l).symm, hne, takeWhile_all p l⟩

/-- C8 helper: a produced `ls` row entry implies the trimmed line matches
the row pattern. -/
theorem parseLsLine_sound (l : List Char) (ent : RemoteFileEntry)
    (h : parseLsLine l = some ent) : lsRowShape l := by
  simp only [parseLsLine] at h
  split_ifs at h with hperm
  have e0 : l = l.takeWhile isPermCh ++ l.dropWhile isPermCh :=
    (List.takeWhile_append_dropWhile isPermCh l).symm
  cases hq1 : reqRun isSp (l.dropWhile isPermCh) with
  | none =>
    rw [hq1] at h
    exact absurd h (fun hx => Option.noConfusion hx)
  | some prhq1 =>
  obtain ⟨w1, r2⟩ := prhq1
  rw [hq1] at h
  simp only [] at h
  obtain ⟨ehq1, hnehq1, hmemhq1⟩ := reqRun_sound isSp (l.dropWhile isPermCh) w1 r2 hq1
  cases hq2 : reqRun isDigitCh r2 with
  | none =>
    rw [hq2] at h
    exact absurd h (fun hx => Option.noConfusion hx)
  | some prhq2 =>
  obtain ⟨links, r3⟩ := prhq2
  rw [hq2] at h
  simp only [] at h
  obtain ⟨ehq2, hnehq2, hmemhq2⟩ := reqRun_sound isDigitCh r2 links r3 hq2
  cases hq3 : reqRun isSp r3 with
  | none =>
    rw [hq3] at h
    exact absurd h (fun hx => Option.noConfusion hx)
  | some prhq3 =>
  obtain ⟨w2, r4⟩ := prhq3
  rw [hq3] at h
  simp only [] at h
  obtain ⟨ehq3, hnehq3, hmemhq3⟩ := reqRun_sound isSp r3 w2 r4 hq3
  cases hq4 : reqRun nonSp r4 with
  | none =>
    rw [hq4] at h
    exact absurd h (fun hx => Option.noConfusion hx)
  | some prhq4 =>
  obtain ⟨owner, r5⟩ := prhq4
  rw [hq4] at h
  simp only [] at h
  obtain ⟨ehq4, hnehq4, hmemhq4⟩ := reqRun_sound nonSp r4 owner r5 hq4
  cases hq5 : reqRun isSp r5 with
  | none =>
    rw [hq5] at h
    exact absurd h (fun hx => Option.noConfusion hx)
  | some prhq5 =>
  obtain ⟨w3, r6⟩ := prhq5
  rw [hq5] at h
  simp only [] at h
  obtain ⟨ehq5, hnehq5, hmemhq5⟩ := reqRun_sound isSp r5 w3 r6 hq5
  cases hq6 : reqRun nonSp r6 with
  | none =>
    rw [hq6] at h
    exact absurd h (fun hx => Option.noConfusion hx)
  | some prhq6 =>
  obtain ⟨grp, r7⟩ := prhq6
  rw [hq6] at h
  simp only [] at h
  obtain ⟨ehq6, hnehq6, hmemhq6⟩ := reqRun_sound nonSp r6 grp r7 hq6
  cases hq7 : reqRun isSp r7 with
  | none =>
    rw [hq7] at h
    exact absurd h (fun hx => Option.noConfusion hx)
  | some prhq7 =>
  obtain ⟨w4, r8⟩ := prhq7
  rw [hq7] at h
  simp only [] at h
  obtain ⟨ehq7, hnehq7, hmemhq7⟩ := reqRun_sound isSp r7 w4 r8 hq7
  cases hq8 : reqRun isDigitCh r8 with
  | none =>
    rw [hq8] at h
    exact absurd h (fun hx => Option.noConfusion hx)
  | some prhq8 =>
  obtain ⟨sz, r9⟩ := prhq8
  rw [hq8] at h
  simp only [] at h
  obtain ⟨ehq8, hnehq8, hmemhq8⟩ := reqRun_sound isDigitCh r8 sz r9 hq8
  cases hq9 : reqRun isSp r9 with
  | none =>
    rw [hq9] at h
    exact absurd h (fun hx => Option.noConfusion hx)
  | some prhq9 =>
  obtain ⟨w5, r10⟩ := prhq9
  rw [hq9] at h
  simp only [] at h
  obtain ⟨ehq9, hnehq9, hmemhq9⟩ := reqRun_sound isSp r9 w5 r10 hq9
  rcases hmatch : r10 with _ | ⟨m1, _ | ⟨m2, _ | ⟨m3, r11⟩⟩⟩
  · rw [hmatch] at h; exact absurd h (by simp)
  · rw [hmatch] at h; exact absurd h (by simp)
  · rw [hmatch] at h; exact absurd h (by simp)
  rw [hmatch] at h
  simp only [] at h
  split_ifs at h with hword
  have hword3 : (isWordCh m1 ∧ isWordCh m2) ∧ isWordCh m3 := by simpa using hword
  have hmon : r10 = [m1, m2, m3] ++ r11 := by rw [hmatch]; rfl
  cases hq10 : reqRun isSp r11 with
  | none =>
    rw [hq10] at h
    exact absurd h (fun hx => Option.noConfusion hx)
  | some prhq10 =>
  obtain ⟨w6, r12⟩ := prhq10
  rw [hq10] at h
  simp only [] at h
  obtain ⟨ehq10, hnehq10, hmemhq10⟩ := reqRun_sound isSp r11 w6 r12 hq10
  cases hq11 : reqRun isDigitCh r12 with
  | none =>
    rw [hq11] at h
    exact absurd h (fun hx => Option.noConfusion hx)
  | some prhq11 =>
  obtain ⟨day, r13⟩ := prhq11
  rw [hq11] at h
  simp only [] at h
  obtain ⟨ehq11, hnehq11, hmemhq11⟩ := reqRun_sound isDigitCh r12 day r13 hq11
  split_ifs at h with hday
  cases hq12 : reqRun isSp r13 with
  | none =>
    rw [hq12] at h
    exact absurd h (fun hx => Option.noConfusion hx)
  | some prhq12 =>
  obtain ⟨w7, r14⟩ := prhq12
  rw [hq12] at h
  simp only [] at h
  obtain ⟨ehq12, hnehq12, hmemhq12⟩ := reqRun_sound isSp r13 w7 r14 hq12
  cases hq13 : reqRun isTimeCh r14 with
  | none =>
    rw [hq13] at h
    exact absurd h (fun hx => Option.noConfusion hx)
  | some prhq13 =>
  obtain ⟨tim, r15⟩ := prhq13
  rw [hq13] at h
  simp only [] at h
  obtain ⟨ehq13, hnehq13, hmemhq13⟩ := reqRun_sound isTimeCh r14 tim r15 hq13
  cases hq14 : reqRun isSp r15 with
  | none =>
    rw [hq14] at h
    exact absurd h (fun hx => Option.noConfusion hx)
  | some prhq14 =>
  obtain ⟨w8, r16⟩ := prhq14
  rw [hq14] at h
  simp only [] at h
  obtain ⟨ehq14, hnehq14, hmemhq14⟩ := reqRun_sound isSp r15 w8 r16 hq14
  split_ifs at h with hr16 hnl
  · -- name is the non-empty, newline-free remainder r16
    have hnested : l = l.takeWhile isPermCh ++ (w1 ++ (links ++ (w2 ++ (owner ++ (w3 ++
        (grp ++ (w4 ++ (sz ++ (w5 ++ ([m1, m2, m3] ++ (w6 ++ (day ++ (w7 ++ (tim ++
        (w8 ++ r16))))))))))))))) := by
      conv_lhs => rw [e0]
      congr 1
      conv_lhs => rw [ehq1]
      congr 1
      conv_lhs => rw [ehq2]
      congr 1
      conv_lhs => rw [ehq3]
      congr 1
      conv_lhs => rw [ehq4]
      congr 1
      conv_lhs => rw [ehq5]
      congr 1
      conv_lhs => rw [ehq6]
      congr 1
      conv_lhs => rw [ehq7]
      congr 1
      conv_lhs => rw [ehq8]
      congr 1
      conv_lhs => rw [ehq9]
      congr 1
      conv_lhs => rw [hmon]
      congr 1
      conv_lhs => rw [ehq10]
      congr 1
      conv_lhs => rw [ehq11]
      congr 1
      conv_lhs => rw [ehq12]
      congr 1
      conv_lhs => rw [ehq13]
      congr 1
    refine ⟨l.takeWhile isPermCh, w1, links, w2, owner, w3, grp, w4, sz, w5,
      [m1, m2, m3], w6, day, w7, tim, w8, r16,
      by simpa [List.append_assoc] using hnested,
      ?_, ?_, hnehq1, hmemhq1, hnehq2, hmemhq2, hnehq3, hmemhq3, hnehq4, hmemhq4,
      hnehq5, hmemhq5, hnehq6, hmemhq6, hnehq7, hmemhq7, hnehq8, hmemhq8,
      hnehq9, hmemhq9, rfl, ?_, hnehq10, hmemhq10, hnehq11, by omega, hmemhq11,
      hnehq12, hmemhq12, hnehq13, hmemhq13, hnehq14, hmemhq14, hr16, hnl⟩
    · omega
    · exact takeWhile_all _ _
    · intro c hc
      simp only [List.mem_cons, List.not_mem_nil, or_false] at hc
      rcases hc with rfl | rfl | rfl
      · exact hword3.1.1
      · exact hword3.1.2
      · exact hword3.2
  · -- the row ends in whitespace: its last character becomes the name
    rcases hlast : w8.getLast? with _ | cl
    · rw [hlast] at h; exact absurd h (by simp)
    rw [hlast] at h
    simp only [] at h
    split_ifs at h with hcl
    have hcl2 : 2 ≤ w8.length ∧ ¬(cl = '\n') := by simpa using hcl
    rcases List.getLast?_eq_some_iff.mp hlast with ⟨w8p, hw8p⟩
    have hr16nil : r16 = [] := not_not.mp hr16
    have e14b : r15 = w8p ++ [cl] := by
      rw [ehq14, hr16nil, List.append_nil, hw8p]
    have hnested : l = l.takeWhile isPermCh ++ (w1 ++ (links ++ (w2 ++ (owner ++ (w3 ++
        (grp ++ (w4 ++ (sz ++ (w5 ++ ([m1, m2, m3] ++ (w6 ++ (day ++ (w7 ++ (tim ++
        (w8p ++ [cl]))))))))))))))) := by
      conv_lhs => rw [e0]
      congr 1
      conv_lhs => rw [ehq1]
      congr 1
      conv_lhs => rw [ehq2]
      congr 1
      conv_lhs => rw [ehq3]
      congr 1
      conv_lhs => rw [ehq4]
      congr 1
      conv_lhs => rw [ehq5]
      congr 1
      conv_lhs => rw [ehq6]
      congr 1
      conv_lhs => rw [ehq7]
      congr 1
      conv_lhs => rw [ehq8]
      congr 1
      conv_lhs => rw [ehq9]
      congr 1
      conv_lhs => rw [hmon]
      congr 1
      conv_lhs => rw [ehq10]
      congr 1
      conv_lhs => rw [ehq11]
      congr 1
      conv_lhs => rw [ehq12]
      congr 1
      conv_lhs => rw [ehq13]
      congr 1
    refine ⟨l.takeWhile isPermCh, w1, links, w2, owner, w3, grp, w4, sz, w5,
      [m1, m2, m3], w6, day, w7, tim, w8p, [cl],
      by simpa [List.append_assoc] using hnested,
      ?_, ?_, hnehq1, hmemhq1, hnehq2, hmemhq2, hnehq3, hmemhq3, hnehq4, hmemhq4,
      hnehq5, hmemhq5, hnehq6, hmemhq6, hnehq7, hmemhq7, hnehq8, hmemhq8,
      hnehq9, hmemhq9, rfl, ?_, hnehq10, hmemhq10, hnehq11, by omega, hmemhq11,
      hnehq12, hmemhq12, hnehq13, hmemhq13, ?_, ?_,
      fun hx => List.noConfusion hx, ?_⟩
    · omega
    · exact takeWhile_all _ _
    · intro c hc
      simp only [List.mem_cons, List.not_mem_nil, or_false] at hc
      rcases hc with rfl | rfl | rfl
      · exact hword3.1.1
      · exact hword3.1.2
      · exact hword3.2
    · have hlen : w8p.length + 1 = w8.length := by rw [hw8p]; simp
      have hpos : 0 < w8p.length := by omega
      exact List.length_pos.mp hpos
    · intro c hc
      exact hmemhq14 c (by rw [hw8p]; exact List.mem_append_left _ hc)
    · intro hm
      simp only [List.mem_singleton] at hm
      exact hcl2.2 hm.symm

/-- C8: every classifier is a total function, and input matching none of
the recognized patterns yields no event: the detectors return `none`/`false`
exactly on pattern-free input, a progress event implies the progress-regex
pattern, and a non-empty listing implies some line matches the row
pattern. -/
theorem classifier_no_match_no_event (output : List Char) :
    (detectHostKeyPrompt output = none ↔
      ¬∃ a b, lowStr output =
        a ++ lowStr ("are you sure you want to continue connecting".toList) ++ b) ∧
    (detectAuthPrompt output = false ↔
      (¬∃ a b, lowStr output = a ++ lowStr ("password:".toList) ++ b) ∧
      (¬∃ a b, lowStr output = a ++ lowStr ("passphrase for key".toList) ++ b)) ∧
    (detectSftpPrompt output = false ↔
      ¬∃ a w, output = a ++ "sftp>".toList ++ w ∧ ∀ c ∈ w, isSp c) ∧
    (detectConnectionError output = none ↔
      ∀ p ∈ errorPatterns, ¬∃ a b, lowStr output = a ++ lowStr p ++ b) ∧
    (∀ r, parseTransferProgress output = some r → tpShape output) ∧
    (parseLsOutput output ≠ [] → ∃ line ∈ splitNl output, lsRowShape (jsTrim line)) := by
  refine ⟨detectHostKeyPrompt_none_iff output, detectAuthPrompt_false_iff output, ?_,
    detectConnectionError_none_iff output,
    fun r h => parseTransferProgress_sound output r h, ?_⟩
  · rw [Bool.eq_false_iff]
    exact not_congr (detectSftpPrompt_true_iff output)
  · intro hne
    have hex : ¬∀ line ∈ splitNl output,
        (fun line =>
          if jsTrim line = [] then none
          else
            match parseLsLine (jsTrim line) with
            | none => none
            | some e =>
              if e.name = ['.'] || e.name = ['.', '.'] then none else some e) line = none := by
      intro hall
      exact hne (List.filterMap_eq_nil_iff.mpr hall)
    push_neg at hex
    rcases hex with ⟨line, hmem, hval⟩
    refine ⟨line, hmem, ?_⟩
    by_cases ht : jsTrim line = []
    · exact absurd (by simp [ht]) hval
    cases hpl : parseLsLine (jsTrim line) with
    | none => exact absurd (by simp [ht, hpl]) hval
    | some e => exact parseLsLine_sound (jsTrim line) e hpl

theorem classifier_no_match_no_event_witness :
    (∃ line ∈ splitNl lsRaw0, lsRowShape (jsTrim line)) ∧ tpShape tpLine0 :=
  ⟨(classifier_no_match_no_event lsRaw0).2.2.2.2.2 (by decide),
   (classifier_no_match_no_event tpLine0).2.2.2.2.1
     { filename := some ("notes.txt".toList), percent := some 45,
       speed := some ("3.2MB/s".toList), eta := some ("00:05".toList) }
     (by decide)⟩

end SftpGui
